import Mathlib

/-!
Verification of the graph gradual type checker
(torch/fx/experimental/graph_gradual_typechecker.py).

The embedding models the checker's data: dimension values, gradual tensor
types, graph nodes with a mutable type slot (a `State` maps node indices to
types), the inference-rule registry, the per-operator inference rules and the
driver.  Python exceptions are modelled by an error component returned next to
the (already mutated) state; Python `None` in a type slot is `Ty.unset`, and a
Python `None` stored into a dimension slot is `Dim.pynone`.
-/

/-- Equality of fallible results is decidable when both components' is. -/
instance {ε α : Type} [DecidableEq ε] [DecidableEq α] : DecidableEq (Except ε α) := fun x y =>
  match x, y with
  | .ok a, .ok b => decidable_of_iff (a = b) (by simp)
  | .error e, .error f => decidable_of_iff (e = f) (by simp)
  | .ok _, .error _ => isFalse (by simp)
  | .error _, .ok _ => isFalse (by simp)

/-- A tensor dimension value as stored in a TensorType: a known integer size,
the unknown marker Dyn, or the Python value None (which the adaptive average
pool helper can store into a dimension slot). -/
inductive Dim where
  | dyn : Dim
  | nint : Int → Dim
  | pynone : Dim
deriving DecidableEq

/-- A value a node's type slot can hold: Dyn, a tensor type carrying its list
of dimensions, the scalar int marker, or the unset slot (Python None). -/
inductive Ty where
  | dyn : Ty
  | tensor : List Dim → Ty
  | scalarInt : Ty
  | unset : Ty
deriving DecidableEq

/-- Whether a type is a TensorType (Python isinstance check). -/
def Ty.isTensor : Ty → Bool
  | .tensor _ => true
  | _ => false

/-- The dimension list of a tensor type (its Python args tuple). -/
def Ty.dims : Ty → List Dim
  | .tensor l => l
  | _ => []

/-- Modelled from the spec: the dimension-level consistency relation of
torch.fx.tensor_type (that module is not under src).  Dyn is consistent with
any dimension; two known dimensions are consistent iff they are equal. -/
def is_consistent_dim : Dim → Dim → Bool
  | .dyn, _ => true
  | _, .dyn => true
  | d1, d2 => d1 == d2

/-- Modelled from the spec: torch.fx.tensor_type.is_consistent (not under
src).  Reflexive and symmetric; Dyn is consistent with anything; two
TensorTypes are consistent iff they have equal rank and each aligned pair of
dimensions is consistent; any other two types are consistent iff equal. -/
def is_consistent : Ty → Ty → Bool
  | .dyn, _ => true
  | _, .dyn => true
  | .tensor l1, .tensor l2 =>
      l1.length == l2.length && (l1.zip l2).all fun p => is_consistent_dim p.1 p.2
  | t1, t2 => t1 == t2

/-- Modelled from the spec: dimension-level precision (torch.fx.tensor_type is
not under src).  A dimension is at least as precise as an equal dimension or
as Dyn. -/
def is_more_precise_dim (d1 d2 : Dim) : Bool :=
  d1 == d2 || d2 == .dyn

/-- Modelled from the spec: torch.fx.tensor_type.is_more_precise (not under
src).  Every type is at least as precise as itself and as Dyn; between two
TensorTypes of equal rank the comparison is dimensionwise. -/
def is_more_precise (t1 t2 : Ty) : Bool :=
  if t1 == t2 then true
  else if t2 == .dyn then true
  else
    match t1, t2 with
    | .tensor l1, .tensor l2 =>
        l1.length == l2.length && (l1.zip l2).all fun p => is_more_precise_dim p.1 p.2
    | _, _ => false

/-- Error kinds, one constructor per raise site reachable in the embedded
code (plus the Python built-in failures: assertion, zero division, reduce of
an empty sequence, multiplying None, attribute errors). -/
inductive Err where
  | rankMismatch
  | cannotMatch
  | broadcastError
  | inPlaceShape
  | cannotBroadcastTypes
  | addMismatch
  | axisOutOfRange
  | reshapeError
  | bnMismatch
  | convMismatch
  | dimTypeError
  | reluMismatch
  | maxpoolMismatch
  | featureMismatch
  | linearRankError
  | linearInconsistent
  | linearWrongTypes
  | avgpoolRankError
  | avgpoolInconsistent
  | avgpoolWrongTypes
  | duplicateRule
  | noRuleRegistered
  | notImplemented
  | assertionFailed
  | zeroDivision
  | reduceEmpty
  | mulTypeError
  | attributeError
deriving DecidableEq

/-- Embedding of apply_matching (lines 15-30): expand Dyn to a tensor of n
Dyn dimensions, keep a rank-n tensor, fail otherwise. -/
def apply_matching (t : Ty) (n : Nat) : Except Err Ty :=
  if t = .dyn then .ok (.tensor (List.replicate n .dyn))
  else
    match t with
    | .tensor l => if l.length ≠ n then .error .rankMismatch else .ok (.tensor l)
    | _ => .error .cannotMatch

/-- The elementwise step of the loop in broadcast_types (lines 53-59): a 1 on
either side is replaced by the other side's value. -/
def matchPair : Dim × Dim → Dim × Dim
  | (x, y) =>
    if x = .nint 1 then (y, y)
    else if y = .nint 1 then (x, x)
    else (x, y)

/-- Embedding of broadcast_types (lines 33-66).  Either side being Dyn
short-circuits; the shorter list is left-padded with the longer list's leading
dimension; after the elementwise matching a result in which both sides changed
from their original shape is rejected. -/
def broadcast_types (t1 t2 : Ty) : Except Err (Ty × Ty) :=
  if t1 = .dyn ∨ t2 = .dyn then .ok (t1, t2)
  else
    match t1, t2 with
    | .tensor l1, .tensor l2 =>
        let s1 := l1.length
        let s2 := l2.length
        if 1 < max (s1 - s2) (s2 - s1) ∨ s1 = 0 ∨ s2 = 0 then .error .broadcastError
        else
          let new1 := if s2 > s1 then l2.headD .dyn :: l1 else l1
          let new2 := if s1 > s2 then l1.headD .dyn :: l2 else l2
          let zs := (new1.zip new2).map matchPair
          let r1 := zs.map Prod.fst
          let r2 := zs.map Prod.snd
          if r1 ≠ l1 ∧ r2 ≠ l2 then .error .inPlaceShape
          else .ok (.tensor r1, .tensor r2)
    | _, _ => .error .cannotBroadcastTypes

/-- Function identities usable as call_function targets. -/
inductive FnTarget where
  | torchAdd
  | operatorAdd
  | torchTranspose
  | torchReshape
  | otherFn : String → FnTarget
deriving DecidableEq

/-- Module class identities usable for call_module dispatch. -/
inductive ModClass where
  | batchNorm2dC
  | conv2dC
  | reluC
  | maxPool2dC
  | linearC
  | adaptiveAvgPool2dC
  | otherC : String → ModClass
deriving DecidableEq

/-- A key of the inference-rule registry: a function identity or a module
class identity. -/
inductive CallTarget where
  | fn : FnTarget → CallTarget
  | cls : ModClass → CallTarget
deriving DecidableEq

/-- A node's target field: a function reference for call_function nodes, an
attribute name for call_module nodes, or nothing. -/
inductive TargetV where
  | fn : FnTarget → TargetV
  | moduleName : String → TargetV
  | noTarget : TargetV
deriving DecidableEq

/-- A hyperparameter that is either a single scalar (broadcast over the two
spatial axes) or an explicit pair. -/
inductive IntOrPair where
  | scalar : Int → IntOrPair
  | pair : Int → Int → IntOrPair
deriving DecidableEq

/-- The height component of a scalar-or-pair hyperparameter. -/
def IntOrPair.fst : IntOrPair → Int
  | .scalar z => z
  | .pair a _ => a

/-- The width component of a scalar-or-pair hyperparameter. -/
def IntOrPair.snd : IntOrPair → Int
  | .scalar z => z
  | .pair _ b => b

/-- The output_size hyperparameter of AdaptiveAvgPool2d: an int or a pair
whose halves may be missing (Python None). -/
inductive AvgSize where
  | int : Int → AvgSize
  | pair : Option Int → Option Int → AvgSize
deriving DecidableEq

/-- An operator instance as resolved by the module lookup, carrying the
hyperparameters the corresponding rule reads. -/
inductive OpModule where
  | batchNorm2d : Int → OpModule
  | conv2d : Int → Int → IntOrPair → IntOrPair → IntOrPair → IntOrPair → OpModule
  | relu : OpModule
  | maxPool2d : IntOrPair → IntOrPair → IntOrPair → IntOrPair → OpModule
  | linear : Int → Int → OpModule
  | adaptiveAvgPool2d : AvgSize → OpModule
  | otherModule : String → OpModule
deriving DecidableEq

/-- The class identity of an operator instance. -/
def OpModule.classOf : OpModule → ModClass
  | .batchNorm2d _ => .batchNorm2dC
  | .conv2d _ _ _ _ _ _ => .conv2dC
  | .relu => .reluC
  | .maxPool2d _ _ _ _ => .maxPool2dC
  | .linear _ _ => .linearC
  | .adaptiveAvgPool2d _ => .adaptiveAvgPool2dC
  | .otherModule nm => .otherC nm

/-- An argument of a node: a reference to another node (by index), a literal
int, or a literal list of ints (the reshape target). -/
inductive Arg where
  | node : Nat → Arg
  | intLit : Int → Arg
  | listLit : List Int → Arg
deriving DecidableEq

/-- The op kind of a node. -/
inductive OpKind where
  | placeholder
  | callFunction
  | callModule
  | output
  | other : String → OpKind
deriving DecidableEq

/-- A graph node: its op kind, target, and argument list.  The mutable type
slot lives in the `State`, addressed by the node's index. -/
structure Node where
  op : OpKind
  target : TargetV
  args : List Arg
deriving DecidableEq

/-- The mutable type slots of all nodes, indexed by node position. -/
abbrev State := Nat → Ty

/-- Write one node's type slot. -/
def upd (s : State) (i : Nat) (v : Ty) : State :=
  fun k => if k = i then v else s k

/-- The indices of the node-valued arguments of a node. -/
def argNodes (n : Node) : List Nat :=
  n.args.filterMap fun a =>
    match a with
    | .node i => some i
    | _ => none

/-- Embedding of add_inference_rule (lines 77-107).  Reads both argument
nodes' types; on the non-scalar path it writes the broadcast results back into
both argument slots before the consistency check, so those writes persist when
the rule then fails. -/
def add_inference_rule (n : Node) (j : Nat) (s : State) : State × Except Err Ty :=
  match n.args.getD 0 (.intLit 0), n.args.getD 1 (.intLit 0) with
  | .node a, .node b =>
    let t1 := s a
    let t2 := s b
    if t1 = .scalarInt ∧ t2.isTensor then (upd s j t2, .ok t2)
    else if t2 = .scalarInt ∧ t1.isTensor then (upd s j t1, .ok t1)
    else
      match broadcast_types t1 t2 with
      | .error e => (s, .error e)
      | .ok (b1, b2) =>
        let s1 := upd (upd s a b1) b b2
        if is_consistent b1 b2 then
          let res := if is_more_precise b1 b2 then b2 else b1
          (upd s1 j res, .ok res)
        else (s1, .error .addMismatch)
  | _, _ => (s, .error .assertionFailed)

/-- Embedding of transpose_inference_rule (lines 110-135).  A node whose
target is not torch.transpose makes the Python function fall through and
return None (modelled as Ty.unset) without touching the state. -/
def transpose_inference_rule (n : Node) (j : Nat) (s : State) : State × Except Err Ty :=
  if n.target = .fn .torchTranspose then
    match n.args.getD 0 (.intLit 0), n.args.getD 1 (.intLit 0), n.args.getD 2 (.intLit 0) with
    | .node a, .intLit d1, .intLit d2 =>
      let t := s a
      if t = .dyn then (upd s j .dyn, .ok .dyn)
      else
        match t with
        | .tensor l =>
          if 0 ≤ d1 ∧ d1 < (l.length : Int) ∧ 0 ≤ d2 ∧ d2 < (l.length : Int) then
            let v1 := l.getD d1.toNat .dyn
            let v2 := l.getD d2.toNat .dyn
            let final := Ty.tensor ((l.set d1.toNat v2).set d2.toNat v1)
            (upd s j final, .ok final)
          else (s, .error .axisOutOfRange)
        | _ => (s, .error .axisOutOfRange)
    | _, _, _ => (s, .error .assertionFailed)
  else (s, .ok .unset)

/-- Product of a list of Python ints via functools.reduce, which raises on an
empty sequence. -/
def reduceProd (l : List Int) : Except Err Int :=
  match l with
  | [] => .error .reduceEmpty
  | x :: xs => .ok (xs.foldl (fun u v => u * v) x)

/-- The dimension list with Dyn replaced by 1, as Python ints; a stored None
would make the subsequent multiplication raise a TypeError. -/
def dimsToInts : List Dim → Except Err (List Int)
  | [] => .ok []
  | .dyn :: ds => (dimsToInts ds).map fun r => 1 :: r
  | .nint z :: ds => (dimsToInts ds).map fun r => z :: r
  | .pynone :: _ => .error .mulTypeError

/-- Whether a type is a TensorType with a Dyn dimension. -/
def hasDynDim : Ty → Bool
  | .tensor l => Dim.dyn ∈ l
  | _ => false

/-- Embedding of reshape_inference_rule (lines 138-177).  The target list maps
-1 to Dyn in the result; the divisibility branch multiplies the raw target
entries (including the -1 sentinels), and Python evaluates p1 % p2 first, so a
zero target product raises ZeroDivisionError. -/
def reshape_inference_rule (n : Node) (j : Nat) (s : State) : State × Except Err Ty :=
  match n.args.getD 0 (.intLit 0), n.args.getD 1 (.intLit 0) with
  | .node a, .listLit t2 =>
    let t1 := s a
    let t2_type : Ty := .tensor (t2.map fun z => if z = -1 then .dyn else .nint z)
    if t1 = .dyn then (upd s j t2_type, .ok t2_type)
    else if hasDynDim t1 ∨ (-1 : Int) ∈ t2 then
      match t1 with
      | .tensor l =>
        match dimsToInts l with
        | .error e => (s, .error e)
        | .ok li =>
          match reduceProd li, reduceProd t2 with
          | .error e, _ => (s, .error e)
          | .ok _, .error e => (s, .error e)
          | .ok p1, .ok p2 =>
            if p2 = 0 then (s, .error .zeroDivision)
            else if p1 % p2 = 0 ∨ p2 % p1 = 0 then (upd s j t2_type, .ok t2_type)
            else (s, .error .reshapeError)
      | _ => (s, .error .assertionFailed)
    else
      match t1 with
      | .tensor l =>
        match dimsToInts l with
        | .error e => (s, .error e)
        | .ok li =>
          match reduceProd li, reduceProd t2 with
          | .error e, _ => (s, .error e)
          | .ok _, .error e => (s, .error e)
          | .ok p1, .ok p2 =>
            if p1 = p2 then (upd s j t2_type, .ok t2_type)
            else (s, .error .reshapeError)
      | _ => (s, .error .reshapeError)
  | _, _ => (s, .error .assertionFailed)

/-- Embedding of calculate_hout (lines 203-219): Python floor division of the
height components after broadcasting scalar hyperparameters to both axes; a
zero stride raises ZeroDivisionError and a non-number input a TypeError. -/
def calculate_hout (h_in : Dim) (padding kernel_size stride dilation : IntOrPair) :
    Except Err Dim :=
  match h_in with
  | .dyn => .ok .dyn
  | .nint h =>
      if stride.fst = 0 then .error .zeroDivision
      else
        .ok (.nint (Int.fdiv (h + (2 * padding.fst - dilation.fst * (kernel_size.fst - 1) - 1))
          stride.fst + 1))
  | .pynone => .error .dimTypeError

/-- Embedding of calculate_wout (lines 221-236): as calculate_hout but with
the width components. -/
def calculate_wout (w_in : Dim) (padding kernel_size stride dilation : IntOrPair) :
    Except Err Dim :=
  match w_in with
  | .dyn => .ok .dyn
  | .nint w =>
      if stride.snd = 0 then .error .zeroDivision
      else
        .ok (.nint (Int.fdiv (w + (2 * padding.snd - dilation.snd * (kernel_size.snd - 1) - 1))
          stride.snd + 1))
  | .pynone => .error .dimTypeError

/-- Embedding of bn2d_inference_rule (lines 179-201). -/
def bn2d_inference_rule (n : Node) (j : Nat) (num_features : Int) (s : State) :
    State × Except Err Ty :=
  match n.args.getD 0 (.intLit 0) with
  | .node a =>
    match apply_matching (s a) 4 with
    | .error e => (s, .error e)
    | .ok ta =>
      let s1 := upd s a ta
      match apply_matching (s1 j) 4 with
      | .error e => (s1, .error e)
      | .ok tj =>
        let s2 := upd s1 j tj
        if is_consistent_dim (ta.dims.getD 1 .dyn) (.nint num_features)
            && is_consistent_dim (tj.dims.getD 1 .dyn) (.nint num_features)
            && is_consistent ta tj then
          if is_more_precise ta tj then (upd s2 j ta, .ok ta) else (s2, .ok tj)
        else (s2, .error .bnMismatch)
  | _ => (s, .error .assertionFailed)

/-- Embedding of conv2d_inference_rule (lines 238-262). -/
def conv2d_inference_rule (n : Node) (j : Nat) (in_channels out_channels : Int)
    (kernel_size stride padding dilation : IntOrPair) (s : State) : State × Except Err Ty :=
  match n.args.getD 0 (.intLit 0) with
  | .node a =>
    match apply_matching (s a) 4 with
    | .error e => (s, .error e)
    | .ok ta =>
      let s1 := upd s a ta
      match apply_matching (s1 j) 4 with
      | .error e => (s1, .error e)
      | .ok tj =>
        let s2 := upd s1 j tj
        if is_consistent_dim (ta.dims.getD 1 .dyn) (.nint in_channels)
            && is_consistent_dim (tj.dims.getD 1 .dyn) (.nint in_channels)
            && is_consistent ta tj then
          match calculate_hout (ta.dims.getD 2 .dyn) padding kernel_size stride dilation with
          | .error e => (s2, .error e)
          | .ok h_out =>
            match calculate_wout (ta.dims.getD 3 .dyn) padding kernel_size stride dilation with
            | .error e => (s2, .error e)
            | .ok w_out =>
              let new_type := Ty.tensor [ta.dims.getD 0 .dyn, .nint out_channels, h_out, w_out]
              (upd s2 j new_type, .ok new_type)
        else (s2, .error .convMismatch)
  | _ => (s, .error .assertionFailed)

/-- Embedding of relu_inference_rule (lines 265-274). -/
def relu_inference_rule (n : Node) (j : Nat) (s : State) : State × Except Err Ty :=
  match n.args.getD 0 (.intLit 0) with
  | .node a =>
    let arg_type := s a
    if is_consistent arg_type (s j) then
      if is_more_precise arg_type (s j) then (upd s j arg_type, .ok arg_type)
      else (s, .ok (s j))
    else (s, .error .reluMismatch)
  | _ => (s, .error .assertionFailed)

/-- Embedding of maxpool2d_inference_rule (lines 278-299). -/
def maxpool2d_inference_rule (n : Node) (j : Nat)
    (kernel_size stride padding dilation : IntOrPair) (s : State) : State × Except Err Ty :=
  match n.args.getD 0 (.intLit 0) with
  | .node a =>
    match apply_matching (s a) 4 with
    | .error e => (s, .error e)
    | .ok ta =>
      let s1 := upd s a ta
      match apply_matching (s1 j) 4 with
      | .error e => (s1, .error e)
      | .ok tj =>
        let s2 := upd s1 j tj
        if is_consistent ta tj then
          match calculate_hout (ta.dims.getD 2 .dyn) padding kernel_size stride dilation with
          | .error e => (s2, .error e)
          | .ok h_out =>
            match calculate_wout (ta.dims.getD 3 .dyn) padding kernel_size stride dilation with
            | .error e => (s2, .error e)
            | .ok w_out =>
              let new_type := Ty.tensor [ta.dims.getD 0 .dyn, ta.dims.getD 1 .dyn, h_out, w_out]
              (upd s2 j new_type, .ok new_type)
        else (s2, .error .maxpoolMismatch)
  | _ => (s, .error .assertionFailed)

/-- Embedding of linear_check (lines 302-316): require rank at least 2 and
the last dimension consistent with in_features, then replace the last
dimension with out_features. -/
def linear_check (l : List Dim) (in_features out_features : Int) : Except Err (List Dim) :=
  if 2 ≤ l.length then
    if is_consistent_dim (.nint in_features) (l.getD (l.length - 1) .dyn) then
      .ok (l.set (l.length - 1) (.nint out_features))
    else .error .featureMismatch
  else .error .linearRankError

/-- Embedding of linear_inference_rule (lines 318-349). -/
def linear_inference_rule (n : Node) (j : Nat) (in_features out_features : Int) (s : State) :
    State × Except Err Ty :=
  match n.args.getD 0 (.intLit 0) with
  | .node a =>
    match s a, s j with
    | .tensor la, .tensor lj =>
      if is_consistent (.tensor la) (.tensor lj) then
        match linear_check la in_features out_features with
        | .error e => (s, .error e)
        | .ok ra =>
          match linear_check lj in_features out_features with
          | .error e => (s, .error e)
          | .ok rj =>
            let res := if is_more_precise (.tensor ra) (.tensor rj) then Ty.tensor ra
              else Ty.tensor rj
            (upd s j res, .ok res)
      else (s, .error .linearInconsistent)
    | .tensor la, .dyn =>
      match linear_check la in_features out_features with
      | .error e => (s, .error e)
      | .ok r => (upd s j (.tensor r), .ok (.tensor r))
    | .dyn, .tensor lj =>
      match linear_check lj in_features out_features with
      | .error e => (s, .error e)
      | .ok r => (upd s j (.tensor r), .ok (.tensor r))
    | .dyn, .dyn => (s, .ok .dyn)
    | _, _ => (s, .error .linearWrongTypes)
  | _ => (s, .error .assertionFailed)

/-- The output_size list after the default-fill step of adaptiveavgpool2d_check
(lines 354-361): an int is duplicated; in a pair a missing first half is
replaced by the second, but the source's treatment of a missing second half is
a comparison, not an assignment, and has no effect. -/
def fixOutputSize : AvgSize → List (Option Int)
  | .int z => [some z, some z]
  | .pair a b => [if a = none then b else a, b]

/-- A raw output_size entry stored into a dimension slot. -/
def dimOfOpt : Option Int → Dim
  | some z => .nint z
  | none => .pynone

/-- Embedding of adaptiveavgpool2d_check (lines 352-372): require rank 3 or 4
and replace the last two dimensions with the (possibly unfixed) output size. -/
def adaptiveavgpool2d_check (l : List Dim) (output_size : AvgSize) : Except Err (List Dim) :=
  let os := fixOutputSize output_size
  if l.length = 4 ∨ l.length = 3 then
    .ok ((l.set (l.length - 1) (dimOfOpt (os.getD 1 none))).set (l.length - 2)
      (dimOfOpt (os.getD 0 none)))
  else .error .avgpoolRankError

/-- Embedding of adaptiveavgpool2d_inference_rule (lines 374-403). -/
def adaptiveavgpool2d_inference_rule (n : Node) (j : Nat) (output_size : AvgSize) (s : State) :
    State × Except Err Ty :=
  match n.args.getD 0 (.intLit 0) with
  | .node a =>
    match s a, s j with
    | .tensor la, .tensor lj =>
      if is_consistent (.tensor la) (.tensor lj) then
        match adaptiveavgpool2d_check la output_size with
        | .error e => (s, .error e)
        | .ok ra =>
          match adaptiveavgpool2d_check lj output_size with
          | .error e => (s, .error e)
          | .ok rj =>
            let res := if is_more_precise (.tensor ra) (.tensor rj) then Ty.tensor ra
              else Ty.tensor rj
            (upd s j res, .ok res)
      else (s, .error .avgpoolInconsistent)
    | .dyn, .tensor lj =>
      match adaptiveavgpool2d_check lj output_size with
      | .error e => (s, .error e)
      | .ok r => (upd s j (.tensor r), .ok (.tensor r))
    | .tensor la, .dyn =>
      match adaptiveavgpool2d_check la output_size with
      | .error e => (s, .error e)
      | .ok r => (upd s j (.tensor r), .ok (.tensor r))
    | .dyn, .dyn => (s, .ok .dyn)
    | _, _ => (s, .error .avgpoolWrongTypes)
  | _ => (s, .error .assertionFailed)

/-- An identifier for each inference rule function, standing for the function
object stored in the Python registry dict. -/
inductive RuleId where
  | addRule
  | transposeRule
  | reshapeRule
  | bn2dRule
  | conv2dRule
  | reluRule
  | maxpool2dRule
  | linearRule
  | avgpool2dRule
deriving DecidableEq

/-- The inference-rule registry: an association from operator identity to
rule, standing for the module-level dict. -/
abbrev Registry := List (CallTarget × RuleId)

/-- Registry lookup (Python dict membership and indexing). -/
def lookupRule (reg : Registry) (t : CallTarget) : Option RuleId :=
  match reg.find? fun p => p.1 == t with
  | some p => some p.2
  | none => none

/-- Embedding of register_inference_rule (lines 68-74): one-shot registration
that fails on a duplicate operator identity. -/
def register_inference_rule (call_target : CallTarget) (r : RuleId) (reg : Registry) :
    Except Err Registry :=
  if (lookupRule reg call_target).isSome then .error .duplicateRule
  else .ok (reg ++ [(call_target, r)])

/-- Dispatch a registered rule.  call_function rules are invoked with the node
alone; module rules read the resolved operator instance's hyperparameters.
Invoking a rule with the wrong kind of operand fails, as the Python call
would. -/
def applyRule (r : RuleId) (n : Node) (j : Nat) (m : Option OpModule) (s : State) :
    State × Except Err Ty :=
  match r, m with
  | .addRule, none => add_inference_rule n j s
  | .transposeRule, none => transpose_inference_rule n j s
  | .reshapeRule, none => reshape_inference_rule n j s
  | .bn2dRule, some (.batchNorm2d nf) => bn2d_inference_rule n j nf s
  | .conv2dRule, some (.conv2d ic oc k st p d) => conv2d_inference_rule n j ic oc k st p d s
  | .reluRule, some _ => relu_inference_rule n j s
  | .maxpool2dRule, some (.maxPool2d k st p d) => maxpool2d_inference_rule n j k st p d s
  | .linearRule, some (.linear i o) => linear_inference_rule n j i o s
  | .avgpool2dRule, some (.adaptiveAvgPool2d os) => adaptiveavgpool2d_inference_rule n j os s
  | _, _ => (s, .error .attributeError)

/-- Embedding of GraphTypeChecker.type_check_node (lines 425-458): an unset
type slot is replaced by Dyn before dispatching on the op kind. -/
def type_check_node (reg : Registry) (env : String → OpModule) (n : Node) (j : Nat) (s : State) :
    State × Except Err Ty :=
  let s := if s j = .unset then upd s j .dyn else s
  match n.op with
  | .placeholder => (s, .ok (s j))
  | .callFunction =>
    match n.target with
    | .fn f =>
      match lookupRule reg (.fn f) with
      | some r => applyRule r n j none s
      | none => (s, .error .noRuleRegistered)
    | _ => (s, .error .noRuleRegistered)
  | .callModule =>
    match n.target with
    | .moduleName nm =>
      let m := env nm
      match lookupRule reg (.cls m.classOf) with
      | some r => applyRule r n j (some m) s
      | none => (s, .error .noRuleRegistered)
    | _ => (s, .error .attributeError)
  | .output =>
    match n.args.getD 0 (.intLit 0) with
    | .node i => (upd s j (s i), .ok (s i))
    | _ => (s, .error .assertionFailed)
  | .other _ => (s, .error .notImplemented)

/-- The node walk of GraphTypeChecker.type_check (lines 411-423), threading
the state and aborting on the first error. -/
def runNodes (reg : Registry) (env : String → OpModule) :
    List Node → Nat → State → State × Except Err Bool
  | [], _, s => (s, .ok true)
  | n :: rest, j, s =>
    match type_check_node reg env n j s with
    | (s1, .ok _) => runNodes reg env rest (j + 1) s1
    | (s1, .error e) => (s1, .error e)

/-- Embedding of GraphTypeChecker.type_check (lines 411-423): visit every node
in stored order once and return true when no rule failed. -/
def type_check (reg : Registry) (env : String → OpModule) (g : List Node) (s : State) :
    State × Except Err Bool :=
  runNodes reg env g 0 s

/-- The registry as populated by the decorators of the source module, in
their execution order. -/
def defaultRegistry : Registry :=
  [(.fn .operatorAdd, .addRule), (.fn .torchAdd, .addRule),
   (.fn .torchTranspose, .transposeRule), (.fn .torchReshape, .reshapeRule),
   (.cls .batchNorm2dC, .bn2dRule), (.cls .conv2dC, .conv2dRule),
   (.cls .reluC, .reluRule), (.cls .maxPool2dC, .maxpool2dRule),
   (.cls .linearC, .linearRule), (.cls .adaptiveAvgPool2dC, .avgpool2dRule)]

/-- The unset-replacement step at the top of type_check_node (source lines
427-428): a node whose type slot is still unset gets Dyn before dispatch. -/
def fillDyn (s : State) (j : Nat) : State :=
  if s j = .unset then upd s j .dyn else s

/-- The operator environment of the running example: one Conv2d with 3 input
channels, 8 output channels, kernel 1, stride 1, padding 0, dilation 1. -/
def envC1 : String → OpModule :=
  fun _ => .conv2d 3 8 (.scalar 1) (.scalar 1) (.scalar 0) (.scalar 1)

/-- The running example graph: placeholder -> conv -> output. -/
def gC1 : List Node :=
  [⟨.placeholder, .noTarget, []⟩,
   ⟨.callModule, .moduleName "conv", [.node 0]⟩,
   ⟨.output, .noTarget, [.node 1]⟩]

/-- The initial slots of the running example: the placeholder is annotated
TensorType(1,3,5,5), everything else unset. -/
def sC1 : State :=
  fun k => if k = 0 then .tensor [.nint 1, .nint 3, .nint 5, .nint 5] else .unset

/-! ### Basic lemmas about states and the type model -/

theorem upd_same (s : State) (j : Nat) (v : Ty) : upd s j v j = v := by
  simp [upd]

theorem upd_other (s : State) (j k : Nat) (v : Ty) (h : k ≠ j) : upd s j v k = s k := by
  simp [upd, h]

theorem upd_self (s : State) (j : Nat) (v : Ty) (h : s j = v) : upd s j v = s := by
  funext k
  by_cases hk : k = j
  · subst hk; simp [upd, h]
  · simp [upd, hk]

theorem upd_upd (s : State) (j : Nat) (v w : Ty) : upd (upd s j v) j w = upd s j w := by
  funext k
  by_cases hk : k = j <;> simp [upd, hk]

theorem is_consistent_dim_refl (d : Dim) : is_consistent_dim d d = true := by
  cases d <;> simp [is_consistent_dim]

theorem is_consistent_dim_comm (a b : Dim) : is_consistent_dim a b = is_consistent_dim b a := by
  cases a <;> cases b <;> simp [is_consistent_dim] <;> try exact eq_comm

theorem zip_self_mem {α : Type} : ∀ (l : List α) (p : α × α), p ∈ l.zip l → p.1 = p.2
  | [], _, h => absurd h (List.not_mem_nil _)
  | a :: t, p, h => by
    rcases List.mem_cons.mp h with h | h
    · subst h; rfl
    · exact zip_self_mem t p h

theorem is_consistent_refl (t : Ty) : is_consistent t t = true := by
  cases t with
  | tensor l =>
    simp only [is_consistent, Bool.and_eq_true, beq_iff_eq, List.all_eq_true]
    exact ⟨trivial, fun p hp => by rw [zip_self_mem l p hp]; exact is_consistent_dim_refl _⟩
  | dyn => rfl
  | scalarInt => simp [is_consistent]
  | unset => simp [is_consistent]

theorem zip_all_consistent_comm (l1 l2 : List Dim) :
    ((l1.zip l2).all fun p => is_consistent_dim p.1 p.2)
      = ((l2.zip l1).all fun p => is_consistent_dim p.1 p.2) := by
  induction l1 generalizing l2 with
  | nil => cases l2 <;> rfl
  | cons a t ih =>
    cases l2 with
    | nil => rfl
    | cons b u => simp [List.all_cons, is_consistent_dim_comm a b, ih u]

theorem beq_nat_comm (m n : Nat) : (m == n) = (n == m) := by
  rw [Bool.eq_iff_iff]
  simp only [beq_iff_eq]
  exact eq_comm

theorem is_consistent_comm (t1 t2 : Ty) : is_consistent t1 t2 = is_consistent t2 t1 := by
  cases t1 <;> cases t2 <;> try rfl
  case tensor.tensor l1 l2 =>
    show (l1.length == l2.length && _) = (l2.length == l1.length && _)
    rw [zip_all_consistent_comm l1 l2, beq_nat_comm]

theorem is_more_precise_refl (t : Ty) : is_more_precise t t = true := by
  simp [is_more_precise]

/-! ### C6: the consistency relation -/

/-- C6: the consistency relation is reflexive and symmetric; Dyn is consistent
with every type; two TensorTypes are consistent exactly when they have equal
rank and every aligned dimension pair is consistent (Dyn with anything, two
known dims only when equal); TensorType(Dyn,2) is consistent with both
TensorType(1,2) and TensorType(3,2), but TensorType(1,2) is not consistent
with TensorType(3,2), so the relation is not transitive. -/
theorem is_consistent_props :
    (∀ t : Ty, is_consistent t t = true)
    ∧ (∀ t1 t2 : Ty, is_consistent t1 t2 = is_consistent t2 t1)
    ∧ (∀ t : Ty, is_consistent .dyn t = true)
    ∧ (∀ l1 l2 : List Dim, is_consistent (.tensor l1) (.tensor l2) = true ↔
        l1.length = l2.length ∧ ∀ p ∈ l1.zip l2, is_consistent_dim p.1 p.2 = true)
    ∧ (∀ d : Dim, is_consistent_dim .dyn d = true)
    ∧ (∀ z w : Int, is_consistent_dim (.nint z) (.nint w) = true ↔ z = w)
    ∧ (is_consistent (.tensor [.dyn, .nint 2]) (.tensor [.nint 1, .nint 2]) = true
        ∧ is_consistent (.tensor [.dyn, .nint 2]) (.tensor [.nint 3, .nint 2]) = true
        ∧ is_consistent (.tensor [.nint 1, .nint 2]) (.tensor [.nint 3, .nint 2]) = false) := by
  refine ⟨is_consistent_refl, is_consistent_comm, fun t => by cases t <;> rfl, ?_,
    fun d => by cases d <;> rfl, ?_, by decide⟩
  · intro l1 l2
    simp [is_consistent, List.all_eq_true]
  · intro z w
    simp [is_consistent_dim]

/-- C6 witness: the symmetry and characterization components applied at
concrete types. -/
theorem is_consistent_props_witness :
    is_consistent (.tensor [.nint 1, .nint 2]) (.tensor [.dyn, .nint 2])
      = is_consistent (.tensor [.dyn, .nint 2]) (.tensor [.nint 1, .nint 2]) :=
  is_consistent_props.2.1 _ _

/-! ### C2: the adaptive-average-pool missing-half default -/

/-- C2 (code bug): with output_size (7, None) the source's default-fill for
the missing second half is a comparison, not an assignment, so the result
type's last dimension is the stored None, not 7; the mirrored case (None, 7)
does default the missing first half to the other half. -/
theorem adaptiveavgpool2d_missing_half_bug :
    adaptiveavgpool2d_check [.nint 1, .nint 2, .nint 3, .nint 4] (.pair (some 7) none)
        = .ok [.nint 1, .nint 2, .nint 7, .pynone]
    ∧ adaptiveavgpool2d_check [.nint 1, .nint 2, .nint 3, .nint 4] (.pair none (some 7))
        = .ok [.nint 1, .nint 2, .nint 7, .nint 7]
    ∧ Dim.pynone ≠ Dim.nint 7 := by
  refine ⟨by decide, by decide, by decide⟩

/-! ### C5: the sliding-window output-size formula -/

/-- The claim's window formula:
floor((dim_in + 2 padding - dilation (kernel_size - 1) - 1) / stride) + 1. -/
def window_output_formula (dim_in padding kernel_size stride dilation : Int) : Int :=
  Int.fdiv (dim_in + 2 * padding - dilation * (kernel_size - 1) - 1) stride + 1

theorem window_arith (h p k d : Int) :
    h + (2 * p - d * (k - 1) - 1) = h + 2 * p - d * (k - 1) - 1 := by ring

/-- C5: for an integer input spatial size the per-axis output size follows the
standard sliding-window formula with that axis's own hyperparameter component
(height components for calculate_hout, width components for calculate_wout,
scalars broadcasting to both axes), a Dyn input yields Dyn, and input 32 with
kernel 3, stride 1, padding 1, dilation 1 yields 32. -/
theorem calculate_window_output_spec (h w : Int) (p k st d : IntOrPair) :
    (st.fst ≠ 0 → calculate_hout (.nint h) p k st d
        = .ok (.nint (window_output_formula h p.fst k.fst st.fst d.fst)))
    ∧ (st.snd ≠ 0 → calculate_wout (.nint w) p k st d
        = .ok (.nint (window_output_formula w p.snd k.snd st.snd d.snd)))
    ∧ calculate_hout .dyn p k st d = .ok .dyn
    ∧ calculate_wout .dyn p k st d = .ok .dyn
    ∧ (∀ z : Int, (IntOrPair.scalar z).fst = z ∧ (IntOrPair.scalar z).snd = z)
    ∧ calculate_hout (.nint 32) (.scalar 1) (.scalar 3) (.scalar 1) (.scalar 1)
        = .ok (.nint 32) := by
  refine ⟨?_, ?_, rfl, rfl, fun z => ⟨rfl, rfl⟩, by decide⟩
  · intro hst
    simp only [calculate_hout, if_neg hst, window_output_formula, window_arith]
  · intro hst
    simp only [calculate_wout, if_neg hst, window_output_formula, window_arith]

/-- C5 witness: the formula component applied at input 32, kernel 3, stride 1,
padding 1, dilation 1, whose stride component is nonzero. -/
theorem calculate_window_output_spec_witness :
    calculate_hout (.nint 32) (.scalar 1) (.scalar 3) (.scalar 1) (.scalar 1)
      = .ok (.nint (window_output_formula 32 1 3 1 1)) :=
  (calculate_window_output_spec 32 32 (.scalar 1) (.scalar 3) (.scalar 1) (.scalar 1)).1
    (by decide)

/-! ### C4: broadcasting -/

/-- The padding rule as the claim states it: the shorter dimension list is
left-padded with the longer list's leading dimension (not with 1). -/
def specPadShorter (l1 l2 : List Dim) : List Dim × List Dim :=
  if l2.length < l1.length then (l1, l1.headD .dyn :: l2)
  else if l1.length < l2.length then (l2.headD .dyn :: l1, l2)
  else (l1, l2)

/-- The matching rule as the claim states it: in each aligned pair a 1 on
either side is replaced by the other side's value. -/
def specMatchOnes (p : List Dim × List Dim) : List Dim × List Dim :=
  (((p.1.zip p.2).map matchPair).map Prod.fst, ((p.1.zip p.2).map matchPair).map Prod.snd)

theorem padShorter_eq (l1 l2 : List Dim) :
    specPadShorter l1 l2
      = ((if l1.length < l2.length then l2.headD .dyn :: l1 else l1),
         (if l2.length < l1.length then l1.headD .dyn :: l2 else l2)) := by
  unfold specPadShorter
  rcases lt_trichotomy l1.length l2.length with h | h | h
  · rw [if_neg (by omega), if_pos h, if_pos h, if_neg (by omega)]
  · rw [if_neg (by omega), if_neg (by omega), if_neg (by omega), if_neg (by omega)]
  · rw [if_pos h, if_neg (by omega), if_pos h]

theorem broadcast_types_tensor (l1 l2 : List Dim) (h1 : l1.length ≠ 0) (h2 : l2.length ≠ 0)
    (hgap : max (l1.length - l2.length) (l2.length - l1.length) ≤ 1) :
    broadcast_types (.tensor l1) (.tensor l2)
      = if (((if l1.length < l2.length then l2.headD .dyn :: l1 else l1).zip
            (if l2.length < l1.length then l1.headD .dyn :: l2 else l2)).map matchPair).map
              Prod.fst ≠ l1
          ∧ (((if l1.length < l2.length then l2.headD .dyn :: l1 else l1).zip
            (if l2.length < l1.length then l1.headD .dyn :: l2 else l2)).map matchPair).map
              Prod.snd ≠ l2
        then .error .inPlaceShape
        else .ok (.tensor ((((if l1.length < l2.length then l2.headD .dyn :: l1 else l1).zip
            (if l2.length < l1.length then l1.headD .dyn :: l2 else l2)).map matchPair).map
              Prod.fst),
          .tensor ((((if l1.length < l2.length then l2.headD .dyn :: l1 else l1).zip
            (if l2.length < l1.length then l1.headD .dyn :: l2 else l2)).map matchPair).map
              Prod.snd)) := by
  have hguard : ¬(1 < max (l1.length - l2.length) (l2.length - l1.length)
      ∨ l1.length = 0 ∨ l2.length = 0) := by
    push_neg
    exact ⟨hgap, h1, h2⟩
  show (if Ty.tensor l1 = Ty.dyn ∨ Ty.tensor l2 = Ty.dyn then Except.ok (Ty.tensor l1, Ty.tensor l2)
      else if 1 < max (l1.length - l2.length) (l2.length - l1.length)
          ∨ l1.length = 0 ∨ l2.length = 0
        then Except.error Err.broadcastError
        else _) = _
  rw [if_neg (by simp), if_neg hguard]

/-- C4: on two tensor types of nonzero ranks differing by at most one,
broadcast_types left-pads the shorter list with the longer list's leading
dimension, then replaces a 1 on either side of each aligned pair by the other
side's value; it fails with the in-place shape error exactly when both results
differ from their original lists, succeeds with the two results when at most
one side changed, and returns any pair with a Dyn operand unchanged. -/
theorem broadcast_types_spec (l1 l2 : List Dim) (h1 : l1 ≠ []) (h2 : l2 ≠ [])
    (hgap : max (l1.length - l2.length) (l2.length - l1.length) ≤ 1) :
    (broadcast_types (.tensor l1) (.tensor l2) = .error .inPlaceShape ↔
      (specMatchOnes (specPadShorter l1 l2)).1 ≠ l1
        ∧ (specMatchOnes (specPadShorter l1 l2)).2 ≠ l2)
    ∧ ((specMatchOnes (specPadShorter l1 l2)).1 = l1
        ∨ (specMatchOnes (specPadShorter l1 l2)).2 = l2 →
        broadcast_types (.tensor l1) (.tensor l2)
          = .ok (.tensor (specMatchOnes (specPadShorter l1 l2)).1,
              .tensor (specMatchOnes (specPadShorter l1 l2)).2))
    ∧ (∀ t1 t2 : Ty, t1 = .dyn ∨ t2 = .dyn → broadcast_types t1 t2 = .ok (t1, t2)) := by
  have h1' : l1.length ≠ 0 := by simpa using h1
  have h2' : l2.length ≠ 0 := by simpa using h2
  have hur := broadcast_types_tensor l1 l2 h1' h2' hgap
  rw [padShorter_eq l1 l2]
  simp only [specMatchOnes]
  refine ⟨?_, ?_, fun t1 t2 h => by unfold broadcast_types; rw [if_pos h]⟩
  · rw [hur]
    by_cases hc : (((if l1.length < l2.length then l2.headD .dyn :: l1 else l1).zip
            (if l2.length < l1.length then l1.headD .dyn :: l2 else l2)).map matchPair).map
              Prod.fst ≠ l1
          ∧ (((if l1.length < l2.length then l2.headD .dyn :: l1 else l1).zip
            (if l2.length < l1.length then l1.headD .dyn :: l2 else l2)).map matchPair).map
              Prod.snd ≠ l2
    · rw [if_pos hc]
      exact ⟨fun _ => hc, fun _ => rfl⟩
    · rw [if_neg hc]
      constructor
      · intro h
        simp at h
      · intro h
        exact absurd h hc
  · intro hor
    have hnc : ¬((((if l1.length < l2.length then l2.headD .dyn :: l1 else l1).zip
            (if l2.length < l1.length then l1.headD .dyn :: l2 else l2)).map matchPair).map
              Prod.fst ≠ l1
          ∧ (((if l1.length < l2.length then l2.headD .dyn :: l1 else l1).zip
            (if l2.length < l1.length then l1.headD .dyn :: l2 else l2)).map matchPair).map
              Prod.snd ≠ l2) := by
      tauto
    rw [hur, if_neg hnc]

/-- C4 witness: TensorType(1,2) against TensorType(3,2) changes only the left
side, so the broadcast succeeds with (3,2) on both sides. -/
theorem broadcast_types_spec_witness :
    broadcast_types (.tensor [.nint 1, .nint 2]) (.tensor [.nint 3, .nint 2])
      = .ok (.tensor (specMatchOnes (specPadShorter [.nint 1, .nint 2]
            [.nint 3, .nint 2])).1,
          .tensor (specMatchOnes (specPadShorter [.nint 1, .nint 2] [.nint 3, .nint 2])).2) :=
  (broadcast_types_spec [.nint 1, .nint 2] [.nint 3, .nint 2] (by decide) (by decide)
    (by decide)).2.1 (by decide)

/-! ### C8: transpose -/

/-- The axis swap as the claim states it. -/
def specSwap (l : List Dim) (d1 d2 : Nat) : List Dim :=
  (l.set d1 (l.getD d2 .dyn)).set d2 (l.getD d1 .dyn)

/-- C8: for a transpose node, a Dyn operand yields Dyn; a tensor operand with
both axis indices in range yields the operand type with those dimensions
swapped; an out-of-range index, or an operand type that is neither Dyn nor a
tensor, fails with the axis-out-of-range error. -/
theorem transpose_inference_rule_spec
    (n : Node) (j : Nat) (s : State) (a : Nat) (d1 d2 : Int)
    (ht : n.target = .fn .torchTranspose)
    (h0 : n.args.getD 0 (.intLit 0) = .node a)
    (h1 : n.args.getD 1 (.intLit 0) = .intLit d1)
    (h2 : n.args.getD 2 (.intLit 0) = .intLit d2) :
    (s a = .dyn → transpose_inference_rule n j s = (upd s j .dyn, .ok .dyn))
    ∧ (∀ l, s a = .tensor l →
        (0 ≤ d1 ∧ d1 < (l.length : Int) ∧ 0 ≤ d2 ∧ d2 < (l.length : Int) →
          transpose_inference_rule n j s
            = (upd s j (.tensor (specSwap l d1.toNat d2.toNat)),
               .ok (.tensor (specSwap l d1.toNat d2.toNat))))
        ∧ (¬(0 ≤ d1 ∧ d1 < (l.length : Int) ∧ 0 ≤ d2 ∧ d2 < (l.length : Int)) →
          transpose_inference_rule n j s = (s, .error .axisOutOfRange)))
    ∧ (s a = .scalarInt ∨ s a = .unset →
        transpose_inference_rule n j s = (s, .error .axisOutOfRange)) := by
  refine ⟨?_, ?_, ?_⟩
  · intro hdyn
    simp only [transpose_inference_rule, ht, h0, h1, h2, hdyn, if_true]
  · intro l htl
    constructor
    · intro hb
      simp only [transpose_inference_rule, ht, h0, h1, h2, htl, if_true]
      rw [if_neg (by simp), if_pos hb]
      rfl
    · intro hb
      simp only [transpose_inference_rule, ht, h0, h1, h2, htl, if_true]
      rw [if_neg (by simp), if_neg hb]
  · intro hother
    rcases hother with hother | hother <;>
      (simp only [transpose_inference_rule, ht, h0, h1, h2, hother, if_true]
       rw [if_neg (by simp)])

/-- C8 witness: swapping axes 0 and 1 of TensorType(2,3). -/
theorem transpose_inference_rule_spec_witness :
    transpose_inference_rule ⟨.callFunction, .fn .torchTranspose,
        [.node 0, .intLit 0, .intLit 1]⟩ 1
        (fun k => if k = 0 then .tensor [.nint 2, .nint 3] else .unset)
      = (upd (fun k => if k = 0 then .tensor [.nint 2, .nint 3] else .unset) 1
          (.tensor (specSwap [.nint 2, .nint 3] 0 1)),
         .ok (.tensor (specSwap [.nint 2, .nint 3] 0 1))) :=
  ((transpose_inference_rule_spec ⟨.callFunction, .fn .torchTranspose,
      [.node 0, .intLit 0, .intLit 1]⟩ 1
      (fun k => if k = 0 then .tensor [.nint 2, .nint 3] else .unset) 0 0 1
      rfl rfl rfl rfl).2.1 [.nint 2, .nint 3] rfl).1 (by decide)

/-! ### C7: the registry -/

/-- C7: registering a rule for an operator identity that already has one fails
with the duplicate-rule error; type-checking a call_function node whose
function has no registered rule, or a call_module node whose module class has
no registered rule, fails with the no-rule-registered error. -/
theorem registry_errors_spec :
    (∀ (reg : Registry) (t : CallTarget) (r : RuleId),
      (lookupRule reg t).isSome →
        register_inference_rule t r reg = .error .duplicateRule)
    ∧ (∀ (reg : Registry) (env : String → OpModule) (n : Node) (j : Nat) (s : State)
        (f : FnTarget),
      n.op = .callFunction → n.target = .fn f → lookupRule reg (.fn f) = none →
        (type_check_node reg env n j s).2 = .error .noRuleRegistered)
    ∧ (∀ (reg : Registry) (env : String → OpModule) (n : Node) (j : Nat) (s : State)
        (nm : String),
      n.op = .callModule → n.target = .moduleName nm →
        lookupRule reg (.cls (env nm).classOf) = none →
        (type_check_node reg env n j s).2 = .error .noRuleRegistered) := by
  refine ⟨?_, ?_, ?_⟩
  · intro reg t r h
    unfold register_inference_rule
    rw [if_pos h]
  · intro reg env n j s f hop htar hlook
    by_cases hu : s j = .unset <;>
      simp [type_check_node, hop, htar, hlook, hu]
  · intro reg env n j s nm hop htar hlook
    by_cases hu : s j = .unset <;>
      simp [type_check_node, hop, htar, hlook, hu]

/-- C7 witness: re-registering the add rule on the default registry fails, and
an unregistered function or module class fails during checking. -/
theorem registry_errors_spec_witness :
    register_inference_rule (.fn .torchAdd) .addRule defaultRegistry
        = .error .duplicateRule
    ∧ (type_check_node defaultRegistry (fun _ => .otherModule "m")
        ⟨.callFunction, .fn (.otherFn "f"), []⟩ 0 (fun _ => .unset)).2
        = .error .noRuleRegistered
    ∧ (type_check_node defaultRegistry (fun _ => .otherModule "m")
        ⟨.callModule, .moduleName "m", []⟩ 0 (fun _ => .unset)).2
        = .error .noRuleRegistered :=
  ⟨registry_errors_spec.1 defaultRegistry (.fn .torchAdd) .addRule (by decide),
   registry_errors_spec.2.1 defaultRegistry _ _ 0 _ (.otherFn "f") rfl rfl (by decide),
   registry_errors_spec.2.2 defaultRegistry _ _ 0 _ "m" rfl rfl (by decide)⟩

/-! ### C10: the add rule mutates its arguments before the consistency check -/

/-- C10: for an add node over two distinct tensor-typed argument nodes whose
types broadcast successfully, the rule stores the broadcast results into both
argument slots; in particular, when the broadcast results are inconsistent the
rule raises the mismatch error with those writes already applied, so a failing
add does not leave the argument nodes unchanged. -/
theorem add_rule_mutates_args_before_consistency
    (n : Node) (j a b : Nat) (s : State) (l1 l2 : List Dim) (b1 b2 : Ty)
    (h0 : n.args.getD 0 (.intLit 0) = .node a)
    (h1 : n.args.getD 1 (.intLit 0) = .node b)
    (hab : a ≠ b) (haj : a ≠ j) (hbj : b ≠ j)
    (ht1 : s a = .tensor l1) (ht2 : s b = .tensor l2)
    (hbr : broadcast_types (.tensor l1) (.tensor l2) = .ok (b1, b2)) :
    ((add_inference_rule n j s).1 a = b1 ∧ (add_inference_rule n j s).1 b = b2)
    ∧ (is_consistent b1 b2 = false →
        add_inference_rule n j s = (upd (upd s a b1) b b2, .error .addMismatch)) := by
  have hmain : add_inference_rule n j s
      = (if is_consistent b1 b2 then
           (upd (upd (upd s a b1) b b2) j (if is_more_precise b1 b2 then b2 else b1),
            .ok (if is_more_precise b1 b2 then b2 else b1))
         else (upd (upd s a b1) b b2, .error .addMismatch)) := by
    simp only [add_inference_rule, h0, h1, ht1, ht2, hbr]
    rw [if_neg (by simp), if_neg (by simp)]
  constructor
  · rw [hmain]
    by_cases hc : is_consistent b1 b2 = true
    · rw [if_pos hc]
      constructor
      · show upd (upd (upd s a b1) b b2) j _ a = b1
        rw [upd_other _ j a _ haj, upd_other _ b a _ hab]
        exact upd_same s a b1
      · show upd (upd (upd s a b1) b b2) j _ b = b2
        rw [upd_other _ j b _ hbj]
        exact upd_same _ b b2
    · rw [if_neg hc]
      constructor
      · show upd (upd s a b1) b b2 a = b1
        rw [upd_other _ b a _ hab]
        exact upd_same s a b1
      · exact upd_same _ b b2
  · intro hc
    rw [hmain, if_neg (by simp [hc])]

/-- C10 witness: adding TensorType(1,2,3) and TensorType(5,2,4) broadcasts to
(5,2,3) and (5,2,4), the writes land in the argument slots, and the rule then
fails the consistency check. -/
theorem add_rule_mutates_args_before_consistency_witness :
    ((add_inference_rule ⟨.callFunction, .fn .torchAdd, [.node 0, .node 1]⟩ 2
        (fun k => if k = 0 then .tensor [.nint 1, .nint 2, .nint 3]
          else if k = 1 then .tensor [.nint 5, .nint 2, .nint 4] else .unset)).1 0
      = .tensor [.nint 5, .nint 2, .nint 3])
    ∧ (add_inference_rule ⟨.callFunction, .fn .torchAdd, [.node 0, .node 1]⟩ 2
        (fun k => if k = 0 then .tensor [.nint 1, .nint 2, .nint 3]
          else if k = 1 then .tensor [.nint 5, .nint 2, .nint 4] else .unset)
      = (upd (upd (fun k => if k = 0 then .tensor [.nint 1, .nint 2, .nint 3]
          else if k = 1 then .tensor [.nint 5, .nint 2, .nint 4] else .unset) 0
            (.tensor [.nint 5, .nint 2, .nint 3])) 1 (.tensor [.nint 5, .nint 2, .nint 4]),
         .error .addMismatch)) :=
  ⟨(add_rule_mutates_args_before_consistency
      ⟨.callFunction, .fn .torchAdd, [.node 0, .node 1]⟩ 2 0 1
      (fun k => if k = 0 then .tensor [.nint 1, .nint 2, .nint 3]
        else if k = 1 then .tensor [.nint 5, .nint 2, .nint 4] else .unset)
      [.nint 1, .nint 2, .nint 3] [.nint 5, .nint 2, .nint 4]
      (.tensor [.nint 5, .nint 2, .nint 3]) (.tensor [.nint 5, .nint 2, .nint 4])
      rfl rfl (by decide) (by decide) (by decide) rfl rfl (by decide)).1.1,
   (add_rule_mutates_args_before_consistency
      ⟨.callFunction, .fn .torchAdd, [.node 0, .node 1]⟩ 2 0 1
      (fun k => if k = 0 then .tensor [.nint 1, .nint 2, .nint 3]
        else if k = 1 then .tensor [.nint 5, .nint 2, .nint 4] else .unset)
      [.nint 1, .nint 2, .nint 3] [.nint 5, .nint 2, .nint 4]
      (.tensor [.nint 5, .nint 2, .nint 3]) (.tensor [.nint 5, .nint 2, .nint 4])
      rfl rfl (by decide) (by decide) (by decide) rfl rfl (by decide)).2 (by decide)⟩

/-! ### C3: reshape -/

/-- The result type as the claim states it: the target list with -1 mapped to
Dyn. -/
def specTargetType (t2 : List Int) : Ty :=
  .tensor (t2.map fun z => if z = -1 then .dyn else .nint z)

/-- The product of the known input dimensions (Dyn dimensions excluded). -/
def knownDimsProd (l : List Dim) : Int :=
  (l.filterMap fun d => match d with | .nint z => some z | _ => none).prod

/-- The product of the known target entries (the -1 sentinels excluded). -/
def knownTargetProd (t2 : List Int) : Int :=
  (t2.filter fun z => z ≠ -1).prod

theorem dimsToInts_no_none (l : List Dim) (h : Dim.pynone ∉ l) :
    dimsToInts l
      = .ok (l.map fun d => match d with | .dyn => 1 | .nint z => z | .pynone => 1) := by
  induction l with
  | nil => rfl
  | cons d t ih =>
    have hd : d ≠ .pynone := fun he => h (he ▸ List.mem_cons_self d t)
    have ht : Dim.pynone ∉ t := fun he => h (List.mem_cons_of_mem d he)
    cases d with
    | dyn => simp [dimsToInts, ih ht, Except.map]
    | nint z => simp [dimsToInts, ih ht, Except.map]
    | pynone => exact absurd rfl hd

theorem map_one_prod_eq_knownDimsProd (l : List Dim) :
    (l.map fun d => match d with | .dyn => 1 | .nint z => z | .pynone => 1).prod
      = knownDimsProd l := by
  induction l with
  | nil => rfl
  | cons d t ih =>
    cases d with
    | dyn =>
      simp only [List.map_cons, List.prod_cons, one_mul]
      rw [ih]
      simp [knownDimsProd, List.filterMap_cons]
    | nint z =>
      simp only [List.map_cons, List.prod_cons]
      rw [ih]
      simp [knownDimsProd, List.filterMap_cons, List.prod_cons]
    | pynone =>
      simp only [List.map_cons, List.prod_cons, one_mul]
      rw [ih]
      simp [knownDimsProd, List.filterMap_cons]

theorem foldl_mul_init (xs : List Int) (x : Int) :
    xs.foldl (fun u v => u * v) x = x * xs.prod := by
  induction xs generalizing x with
  | nil => simp
  | cons y ys ih => simp [List.foldl_cons, ih, List.prod_cons, mul_assoc]

theorem reduceProd_ok (l : List Int) (h : l ≠ []) : reduceProd l = .ok l.prod := by
  cases l with
  | nil => exact absurd rfl h
  | cons x xs => simp [reduceProd, foldl_mul_init, List.prod_cons]

theorem target_prod_sign (t2 : List Int) :
    t2.prod = knownTargetProd t2 ∨ t2.prod = -knownTargetProd t2 := by
  induction t2 with
  | nil => left; rfl
  | cons z t ih =>
    by_cases hz : z = -1
    · subst hz
      have hk : knownTargetProd ((-1 : Int) :: t) = knownTargetProd t := by
        simp [knownTargetProd]
      rcases ih with h | h
      · right; rw [hk, List.prod_cons, h]; ring
      · left; rw [hk, List.prod_cons, h]; ring
    · have hk : knownTargetProd (z :: t) = z * knownTargetProd t := by
        simp [knownTargetProd, hz, List.prod_cons]
      rcases ih with h | h
      · left; rw [hk, List.prod_cons, h]
      · right; rw [hk, List.prod_cons, h]; ring

theorem dvd_pm_iff (a b p : Int) (h : p = b ∨ p = -b) :
    ((a ∣ p ↔ a ∣ b) ∧ (p ∣ a ↔ b ∣ a) ∧ (p = 0 ↔ b = 0)) := by
  rcases h with h | h <;> subst h
  · exact ⟨Iff.rfl, Iff.rfl, Iff.rfl⟩
  · exact ⟨dvd_neg, neg_dvd, neg_eq_zero⟩

/-- C3 (amended): for a reshape node with a nonempty well-formed tensor input
and nonempty target list: a Dyn input yields the target shape with -1 mapped
to Dyn; when the input has a Dyn dimension or the target contains -1, and the
target's known product is nonzero, the rule succeeds with that shape exactly
when the known input product divides or is divided by the known target
product, and fails with the reshape error otherwise (a zero target product
instead raises a division-by-zero error, and an empty side a reduce error);
when both sides are fully known it succeeds exactly when the two products are
equal.  In particular TensorType(2,3,4) reshaped to [-1,4] gives
TensorType(Dyn,4) and to [5,5] fails with the reshape error. -/
theorem reshape_inference_rule_spec
    (n : Node) (j : Nat) (s : State) (a : Nat) (t2 : List Int)
    (h0 : n.args.getD 0 (.intLit 0) = .node a)
    (h1 : n.args.getD 1 (.intLit 0) = .listLit t2) :
    (s a = .dyn → reshape_inference_rule n j s
        = (upd s j (specTargetType t2), .ok (specTargetType t2)))
    ∧ (∀ l, s a = .tensor l → Dim.pynone ∉ l → l ≠ [] → t2 ≠ [] →
        ((Dim.dyn ∈ l ∨ (-1 : Int) ∈ t2) → knownTargetProd t2 ≠ 0 →
          (knownDimsProd l ∣ knownTargetProd t2 ∨ knownTargetProd t2 ∣ knownDimsProd l →
            reshape_inference_rule n j s
              = (upd s j (specTargetType t2), .ok (specTargetType t2)))
          ∧ (¬(knownDimsProd l ∣ knownTargetProd t2 ∨ knownTargetProd t2 ∣ knownDimsProd l) →
            reshape_inference_rule n j s = (s, .error .reshapeError)))
        ∧ (Dim.dyn ∉ l → (-1 : Int) ∉ t2 →
          (knownDimsProd l = knownTargetProd t2 →
            reshape_inference_rule n j s
              = (upd s j (specTargetType t2), .ok (specTargetType t2)))
          ∧ (knownDimsProd l ≠ knownTargetProd t2 →
            reshape_inference_rule n j s = (s, .error .reshapeError))))
    ∧ (reshape_inference_rule ⟨.callFunction, .fn .torchReshape, [.node 0, .listLit [-1, 4]]⟩ 1
        (fun k => if k = 0 then .tensor [.nint 2, .nint 3, .nint 4] else .unset)).2
        = .ok (.tensor [.dyn, .nint 4])
    ∧ (reshape_inference_rule ⟨.callFunction, .fn .torchReshape, [.node 0, .listLit [5, 5]]⟩ 1
        (fun k => if k = 0 then .tensor [.nint 2, .nint 3, .nint 4] else .unset)).2
        = .error .reshapeError := by
  refine ⟨?_, ?_, by decide, by decide⟩
  · intro hdyn
    simp only [reshape_inference_rule, h0, h1, hdyn, if_true, specTargetType]
  · intro l htl hpy hlne ht2ne
    have hmap := dimsToInts_no_none l hpy
    have hmapne : (l.map fun d => match d with | .dyn => 1 | .nint z => z | .pynone => 1)
        ≠ [] := by
      simpa using hlne
    have hred1 := reduceProd_ok _ hmapne
    have hred2 := reduceProd_ok t2 ht2ne
    have hp1 : (l.map fun d => match d with | .dyn => 1 | .nint z => z | .pynone => 1).prod
        = knownDimsProd l := map_one_prod_eq_knownDimsProd l
    have hsign := target_prod_sign t2
    constructor
    · intro hbranch hk0
      have hcond : (hasDynDim (.tensor l) = true ∨ (-1 : Int) ∈ t2) := by
        rcases hbranch with h | h
        · left; simpa [hasDynDim] using h
        · right; exact h
      have hdvd := dvd_pm_iff (knownDimsProd l) (knownTargetProd t2) t2.prod hsign
      have hp2ne : t2.prod ≠ 0 := fun he => hk0 (hdvd.2.2.mp he)
      have hchar : reshape_inference_rule n j s
          = if t2.prod ∣ knownDimsProd l ∨ knownDimsProd l ∣ t2.prod then
              (upd s j (specTargetType t2), .ok (specTargetType t2))
            else (s, .error .reshapeError) := by
        simp only [reshape_inference_rule, h0, h1, htl]
        rw [if_neg (by simp), if_pos hcond]
        simp only [hmap, hred1, hred2, hp1]
        rw [if_neg hp2ne]
        simp only [← Int.dvd_iff_emod_eq_zero, specTargetType]
      constructor
      · intro hdv
        rw [hchar, if_pos ?_]
        rcases hdv with h | h
        · exact Or.inr (hdvd.1.mpr h)
        · exact Or.inl (hdvd.2.1.mpr h)
      · intro hndv
        rw [hchar, if_neg ?_]
        rintro (h | h)
        · exact hndv (Or.inr (hdvd.2.1.mp h))
        · exact hndv (Or.inl (hdvd.1.mp h))
    · intro hnodyn hno1
      have hcond2 : ¬(hasDynDim (.tensor l) = true ∨ (-1 : Int) ∈ t2) := by
        rintro (h | h)
        · exact hnodyn (by simpa [hasDynDim] using h)
        · exact hno1 h
      have ht2eq : t2.prod = knownTargetProd t2 := by
        unfold knownTargetProd
        rw [List.filter_eq_self.mpr]
        intro z hz
        exact decide_eq_true fun he => hno1 (he ▸ hz)
      have hchar : reshape_inference_rule n j s
          = if knownDimsProd l = knownTargetProd t2 then
              (upd s j (specTargetType t2), .ok (specTargetType t2))
            else (s, .error .reshapeError) := by
        simp only [reshape_inference_rule, h0, h1, htl]
        rw [if_neg (by simp), if_neg hcond2]
        simp only [hmap, hred1, hred2, hp1, ht2eq, specTargetType]
      constructor
      · intro he
        rw [hchar, if_pos he]
      · intro hne
        rw [hchar, if_neg hne]

/-- C3 counterexample: reshaping TensorType(Dyn,2) to target [0] raises a
division-by-zero error, although the known input product 2 divides the known
target product 0, where the claim predicts success; the error is also not
the reshape error the claim allows. -/
theorem reshape_zero_target_counterexample :
    (reshape_inference_rule ⟨.callFunction, .fn .torchReshape, [.node 0, .listLit [0]]⟩ 1
        (fun k => if k = 0 then .tensor [.dyn, .nint 2] else .unset)).2
        = .error .zeroDivision
    ∧ knownDimsProd [.dyn, .nint 2] ∣ knownTargetProd [0]
    ∧ Err.zeroDivision ≠ Err.reshapeError := by
  refine ⟨by decide, ?_, by decide⟩
  decide

/-- C3 witness: the divisibility component applied to TensorType(2,3,4)
reshaped to [-1,4]. -/
theorem reshape_inference_rule_spec_witness :
    reshape_inference_rule ⟨.callFunction, .fn .torchReshape, [.node 0, .listLit [-1, 4]]⟩ 1
        (fun k => if k = 0 then .tensor [.nint 2, .nint 3, .nint 4] else .unset)
      = (upd (fun k => if k = 0 then .tensor [.nint 2, .nint 3, .nint 4] else .unset) 1
          (specTargetType [-1, 4]), .ok (specTargetType [-1, 4])) :=
  (((reshape_inference_rule_spec ⟨.callFunction, .fn .torchReshape,
      [.node 0, .listLit [-1, 4]]⟩ 1
      (fun k => if k = 0 then .tensor [.nint 2, .nint 3, .nint 4] else .unset) 0 [-1, 4]
      rfl rfl).2.1 [.nint 2, .nint 3, .nint 4] rfl (by decide) (by decide) (by decide)).1
    (by decide) (by decide)).1 (by decide)

/-! ### Inversion lemmas: what a successful rule run looks like -/

theorem add_inv (n : Node) (j : Nat) (s s1 : State) (r : Ty)
    (h : add_inference_rule n j s = (s1, .ok r)) :
    ∃ a b, n.args.getD 0 (.intLit 0) = .node a ∧ n.args.getD 1 (.intLit 0) = .node b ∧
      ((s a = .scalarInt ∧ (s b).isTensor = true ∧ s1 = upd s j (s b) ∧ r = s b)
       ∨ ((s b = .scalarInt ∧ (s a).isTensor = true) ∧ s1 = upd s j (s a) ∧ r = s a)
       ∨ (∃ b1 b2, broadcast_types (s a) (s b) = .ok (b1, b2)
            ∧ is_consistent b1 b2 = true
            ∧ r = (if is_more_precise b1 b2 then b2 else b1)
            ∧ s1 = upd (upd (upd s a b1) b b2) j r)) := by
  unfold add_inference_rule at h
  split at h
  case h_2 => simp at h
  case h_1 a b heq0 heq1 =>
    refine ⟨a, b, heq0, heq1, ?_⟩
    dsimp only [] at h
    split at h
    case isTrue hsc =>
      rw [Prod.mk.injEq] at h
      obtain ⟨hs, hr⟩ := h
      injection hr with hr
      exact Or.inl ⟨hsc.1, hsc.2, hs.symm, hr.symm⟩
    case isFalse hsc1 =>
      split at h
      case isTrue hsc =>
        rw [Prod.mk.injEq] at h
        obtain ⟨hs, hr⟩ := h
        injection hr with hr
        exact Or.inr (Or.inl ⟨hsc, hs.symm, hr.symm⟩)
      case isFalse hsc2 =>
        split at h
        case h_1 e heq => simp at h
        case h_2 b1 b2 heq =>
          split at h
          case isTrue hcons =>
            rw [Prod.mk.injEq] at h
            obtain ⟨hs, hr⟩ := h
            injection hr with hr
            exact Or.inr (Or.inr ⟨b1, b2, heq, hcons, hr.symm, by rw [← hr, ← hs]⟩)
          case isFalse hcons => simp at h

theorem transpose_inv (n : Node) (j : Nat) (s s1 : State) (r : Ty)
    (h : transpose_inference_rule n j s = (s1, .ok r)) :
    (n.target ≠ .fn .torchTranspose ∧ s1 = s ∧ r = .unset)
    ∨ (n.target = .fn .torchTranspose ∧ ∃ a d1 d2,
        n.args.getD 0 (.intLit 0) = .node a ∧ n.args.getD 1 (.intLit 0) = .intLit d1
        ∧ n.args.getD 2 (.intLit 0) = .intLit d2
        ∧ ((s a = .dyn ∧ s1 = upd s j .dyn ∧ r = .dyn)
           ∨ (∃ l, s a = .tensor l
                ∧ (0 ≤ d1 ∧ d1 < (l.length : Int) ∧ 0 ≤ d2 ∧ d2 < (l.length : Int))
                ∧ r = .tensor ((l.set d1.toNat (l.getD d2.toNat .dyn)).set d2.toNat
                    (l.getD d1.toNat .dyn))
                ∧ s1 = upd s j r))) := by
  unfold transpose_inference_rule at h
  split at h
  case isFalse htar =>
    rw [Prod.mk.injEq] at h
    obtain ⟨hs, hr⟩ := h
    injection hr with hr
    exact Or.inl ⟨htar, hs.symm, hr.symm⟩
  case isTrue htar =>
    refine Or.inr ⟨htar, ?_⟩
    split at h
    case h_2 => simp at h
    case h_1 a d1 d2 heq0 heq1 heq2 =>
      refine ⟨a, d1, d2, heq0, heq1, heq2, ?_⟩
      dsimp only [] at h
      split at h
      case isTrue hdyn =>
        rw [Prod.mk.injEq] at h
        obtain ⟨hs, hr⟩ := h
        injection hr with hr
        exact Or.inl ⟨hdyn, hs.symm, hr.symm⟩
      case isFalse hdyn =>
        split at h
        case h_2 => simp at h
        case h_1 l hl =>
          split at h
          case isFalse hb => simp at h
          case isTrue hb =>
            rw [Prod.mk.injEq] at h
            obtain ⟨hs, hr⟩ := h
            injection hr with hr
            exact Or.inr ⟨l, hl, hb, hr.symm, by rw [← hr, ← hs]⟩

theorem reshape_inv (n : Node) (j : Nat) (s s1 : State) (r : Ty)
    (h : reshape_inference_rule n j s = (s1, .ok r)) :
    ∃ a t2, n.args.getD 0 (.intLit 0) = .node a ∧ n.args.getD 1 (.intLit 0) = .listLit t2
      ∧ r = .tensor (t2.map fun z => if z = -1 then .dyn else .nint z)
      ∧ s1 = upd s j r := by
  unfold reshape_inference_rule at h
  split at h
  case h_2 => simp at h
  case h_1 a t2 heq0 heq1 =>
    refine ⟨a, t2, heq0, heq1, ?_⟩
    dsimp only [] at h
    split at h
    case isTrue hdyn =>
      rw [Prod.mk.injEq] at h
      obtain ⟨hs, hr⟩ := h
      injection hr with hr
      exact ⟨hr.symm, by rw [← hr, ← hs]⟩
    case isFalse hdyn =>
      split at h
      case isTrue hbr =>
        split at h
        case h_2 => simp at h
        case h_1 l hl =>
          split at h
          case h_1 => simp at h
          case h_2 li hli =>
            split at h
            case h_1 => simp at h
            case h_2 => simp at h
            case h_3 p1 p2 hp1 hp2 =>
              split at h
              case isTrue => simp at h
              case isFalse hz =>
                split at h
                case isFalse => simp at h
                case isTrue hd =>
                  rw [Prod.mk.injEq] at h
                  obtain ⟨hs, hr⟩ := h
                  injection hr with hr
                  exact ⟨hr.symm, by rw [← hr, ← hs]⟩
      case isFalse hbr =>
        split at h
        case h_2 => simp at h
        case h_1 l hl =>
          split at h
          case h_1 => simp at h
          case h_2 li hli =>
            split at h
            case h_1 => simp at h
            case h_2 => simp at h
            case h_3 p1 p2 hp1 hp2 =>
              split at h
              case isFalse => simp at h
              case isTrue he =>
                rw [Prod.mk.injEq] at h
                obtain ⟨hs, hr⟩ := h
                injection hr with hr
                exact ⟨hr.symm, by rw [← hr, ← hs]⟩

theorem bn2d_inv (n : Node) (j : Nat) (nf : Int) (s s1 : State) (r : Ty)
    (h : bn2d_inference_rule n j nf s = (s1, .ok r)) :
    ∃ a ta tj, n.args.getD 0 (.intLit 0) = .node a
      ∧ apply_matching (s a) 4 = .ok ta
      ∧ apply_matching (upd s a ta j) 4 = .ok tj
      ∧ (is_consistent_dim (ta.dims.getD 1 .dyn) (.nint nf)
          && is_consistent_dim (tj.dims.getD 1 .dyn) (.nint nf)
          && is_consistent ta tj) = true
      ∧ ((is_more_precise ta tj = true ∧ r = ta
            ∧ s1 = upd (upd (upd s a ta) j tj) j ta)
         ∨ (is_more_precise ta tj = false ∧ r = tj
            ∧ s1 = upd (upd s a ta) j tj)) := by
  unfold bn2d_inference_rule at h
  split at h
  case h_2 => simp at h
  case h_1 a heq0 =>
    split at h
    case h_1 => simp at h
    case h_2 ta hta =>
      dsimp only [] at h
      split at h
      case h_1 => simp at h
      case h_2 tj htj =>
        refine ⟨a, ta, tj, heq0, hta, htj, ?_⟩
        split at h
        case isFalse => simp at h
        case isTrue hchk =>
          refine ⟨hchk, ?_⟩
          split at h
          case isTrue hmp =>
            rw [Prod.mk.injEq] at h
            obtain ⟨hs, hr⟩ := h
            injection hr with hr
            exact Or.inl ⟨hmp, hr.symm, hs.symm⟩
          case isFalse hmp =>
            rw [Prod.mk.injEq] at h
            obtain ⟨hs, hr⟩ := h
            injection hr with hr
            exact Or.inr ⟨Bool.not_eq_true _ ▸ hmp, hr.symm, hs.symm⟩

theorem conv2d_inv (n : Node) (j : Nat) (ic oc : Int) (k st p d : IntOrPair)
    (s s1 : State) (r : Ty)
    (h : conv2d_inference_rule n j ic oc k st p d s = (s1, .ok r)) :
    ∃ a ta tj, n.args.getD 0 (.intLit 0) = .node a
      ∧ apply_matching (s a) 4 = .ok ta
      ∧ apply_matching (upd s a ta j) 4 = .ok tj
      ∧ (is_consistent_dim (ta.dims.getD 1 .dyn) (.nint ic)
          && is_consistent_dim (tj.dims.getD 1 .dyn) (.nint ic)
          && is_consistent ta tj) = true
      ∧ ∃ h_out w_out, calculate_hout (ta.dims.getD 2 .dyn) p k st d = .ok h_out
        ∧ calculate_wout (ta.dims.getD 3 .dyn) p k st d = .ok w_out
        ∧ r = .tensor [ta.dims.getD 0 .dyn, .nint oc, h_out, w_out]
        ∧ s1 = upd (upd (upd s a ta) j tj) j r := by
  unfold conv2d_inference_rule at h
  split at h
  case h_2 => simp at h
  case h_1 a heq0 =>
    split at h
    case h_1 => simp at h
    case h_2 ta hta =>
      dsimp only [] at h
      split at h
      case h_1 => simp at h
      case h_2 tj htj =>
        refine ⟨a, ta, tj, heq0, hta, htj, ?_⟩
        split at h
        case isFalse => simp at h
        case isTrue hchk =>
          refine ⟨hchk, ?_⟩
          split at h
          case h_1 => simp at h
          case h_2 h_out hhout =>
            split at h
            case h_1 => simp at h
            case h_2 w_out hwout =>
              rw [Prod.mk.injEq] at h
              obtain ⟨hs, hr⟩ := h
              injection hr with hr
              exact ⟨h_out, w_out, hhout, hwout, hr.symm, by rw [← hr, ← hs]⟩

theorem relu_inv (n : Node) (j : Nat) (s s1 : State) (r : Ty)
    (h : relu_inference_rule n j s = (s1, .ok r)) :
    ∃ a, n.args.getD 0 (.intLit 0) = .node a
      ∧ is_consistent (s a) (s j) = true
      ∧ ((is_more_precise (s a) (s j) = true ∧ s1 = upd s j (s a) ∧ r = s a)
         ∨ (is_more_precise (s a) (s j) = false ∧ s1 = s ∧ r = s j)) := by
  unfold relu_inference_rule at h
  split at h
  case h_2 => simp at h
  case h_1 a heq0 =>
    dsimp only [] at h
    split at h
    case isFalse => simp at h
    case isTrue hcons =>
      refine ⟨a, heq0, hcons, ?_⟩
      split at h
      case isTrue hmp =>
        rw [Prod.mk.injEq] at h
        obtain ⟨hs, hr⟩ := h
        injection hr with hr
        exact Or.inl ⟨hmp, hs.symm, hr.symm⟩
      case isFalse hmp =>
        rw [Prod.mk.injEq] at h
        obtain ⟨hs, hr⟩ := h
        injection hr with hr
        exact Or.inr ⟨Bool.not_eq_true _ ▸ hmp, hs.symm, hr.symm⟩

theorem maxpool2d_inv (n : Node) (j : Nat) (k st p d : IntOrPair)
    (s s1 : State) (r : Ty)
    (h : maxpool2d_inference_rule n j k st p d s = (s1, .ok r)) :
    ∃ a ta tj, n.args.getD 0 (.intLit 0) = .node a
      ∧ apply_matching (s a) 4 = .ok ta
      ∧ apply_matching (upd s a ta j) 4 = .ok tj
      ∧ is_consistent ta tj = true
      ∧ ∃ h_out w_out, calculate_hout (ta.dims.getD 2 .dyn) p k st d = .ok h_out
        ∧ calculate_wout (ta.dims.getD 3 .dyn) p k st d = .ok w_out
        ∧ r = .tensor [ta.dims.getD 0 .dyn, ta.dims.getD 1 .dyn, h_out, w_out]
        ∧ s1 = upd (upd (upd s a ta) j tj) j r := by
  unfold maxpool2d_inference_rule at h
  split at h
  case h_2 => simp at h
  case h_1 a heq0 =>
    split at h
    case h_1 => simp at h
    case h_2 ta hta =>
      dsimp only [] at h
      split at h
      case h_1 => simp at h
      case h_2 tj htj =>
        refine ⟨a, ta, tj, heq0, hta, htj, ?_⟩
        split at h
        case isFalse => simp at h
        case isTrue hchk =>
          refine ⟨hchk, ?_⟩
          split at h
          case h_1 => simp at h
          case h_2 h_out hhout =>
            split at h
            case h_1 => simp at h
            case h_2 w_out hwout =>
              rw [Prod.mk.injEq] at h
              obtain ⟨hs, hr⟩ := h
              injection hr with hr
              exact ⟨h_out, w_out, hhout, hwout, hr.symm, by rw [← hr, ← hs]⟩

theorem linear_inv (n : Node) (j : Nat) (i o : Int) (s s1 : State) (r : Ty)
    (h : linear_inference_rule n j i o s = (s1, .ok r)) :
    ∃ a, n.args.getD 0 (.intLit 0) = .node a
      ∧ ((∃ la lj, s a = .tensor la ∧ s j = .tensor lj
            ∧ is_consistent (.tensor la) (.tensor lj) = true
            ∧ ∃ ra rj, linear_check la i o = .ok ra ∧ linear_check lj i o = .ok rj
              ∧ r = (if is_more_precise (.tensor ra) (.tensor rj) then Ty.tensor ra
                  else Ty.tensor rj)
              ∧ s1 = upd s j r)
         ∨ (∃ la ra, s a = .tensor la ∧ s j = .dyn ∧ linear_check la i o = .ok ra
              ∧ r = .tensor ra ∧ s1 = upd s j r)
         ∨ (∃ lj rj, s a = .dyn ∧ s j = .tensor lj ∧ linear_check lj i o = .ok rj
              ∧ r = .tensor rj ∧ s1 = upd s j r)
         ∨ (s a = .dyn ∧ s j = .dyn ∧ s1 = s ∧ r = .dyn)) := by
  unfold linear_inference_rule at h
  split at h
  case h_2 => simp at h
  case h_1 a heq0 =>
    refine ⟨a, heq0, ?_⟩
    split at h
    case h_1 la lj hla hlj =>
      split at h
      case isFalse => simp at h
      case isTrue hcons =>
        split at h
        case h_1 => simp at h
        case h_2 ra hra =>
          split at h
          case h_1 => simp at h
          case h_2 rj hrj =>
            rw [Prod.mk.injEq] at h
            obtain ⟨hs, hr⟩ := h
            injection hr with hr
            exact Or.inl ⟨la, lj, hla, hlj, hcons, ra, rj, hra, hrj, hr.symm,
              by rw [← hr, ← hs]⟩
    case h_2 la hla hlj =>
      split at h
      case h_1 => simp at h
      case h_2 ra hra =>
        rw [Prod.mk.injEq] at h
        obtain ⟨hs, hr⟩ := h
        injection hr with hr
        exact Or.inr (Or.inl ⟨la, ra, hla, hlj, hra, hr.symm, by rw [← hr, ← hs]⟩)
    case h_3 lj hla hlj =>
      split at h
      case h_1 => simp at h
      case h_2 rj hrj =>
        rw [Prod.mk.injEq] at h
        obtain ⟨hs, hr⟩ := h
        injection hr with hr
        exact Or.inr (Or.inr (Or.inl ⟨lj, rj, hla, hlj, hrj, hr.symm, by rw [← hr, ← hs]⟩))
    case h_4 hla hlj =>
      rw [Prod.mk.injEq] at h
      obtain ⟨hs, hr⟩ := h
      injection hr with hr
      exact Or.inr (Or.inr (Or.inr ⟨hla, hlj, hs.symm, hr.symm⟩))
    case h_5 => simp at h

theorem avgpool2d_inv (n : Node) (j : Nat) (os : AvgSize) (s s1 : State) (r : Ty)
    (h : adaptiveavgpool2d_inference_rule n j os s = (s1, .ok r)) :
    ∃ a, n.args.getD 0 (.intLit 0) = .node a
      ∧ ((∃ la lj, s a = .tensor la ∧ s j = .tensor lj
            ∧ is_consistent (.tensor la) (.tensor lj) = true
            ∧ ∃ ra rj, adaptiveavgpool2d_check la os = .ok ra
              ∧ adaptiveavgpool2d_check lj os = .ok rj
              ∧ r = (if is_more_precise (.tensor ra) (.tensor rj) then Ty.tensor ra
                  else Ty.tensor rj)
              ∧ s1 = upd s j r)
         ∨ (∃ lj rj, s a = .dyn ∧ s j = .tensor lj ∧ adaptiveavgpool2d_check lj os = .ok rj
              ∧ r = .tensor rj ∧ s1 = upd s j r)
         ∨ (∃ la ra, s a = .tensor la ∧ s j = .dyn ∧ adaptiveavgpool2d_check la os = .ok ra
              ∧ r = .tensor ra ∧ s1 = upd s j r)
         ∨ (s a = .dyn ∧ s j = .dyn ∧ s1 = s ∧ r = .dyn)) := by
  unfold adaptiveavgpool2d_inference_rule at h
  split at h
  case h_2 => simp at h
  case h_1 a heq0 =>
    refine ⟨a, heq0, ?_⟩
    split at h
    case h_1 la lj hla hlj =>
      split at h
      case isFalse => simp at h
      case isTrue hcons =>
        split at h
        case h_1 => simp at h
        case h_2 ra hra =>
          split at h
          case h_1 => simp at h
          case h_2 rj hrj =>
            rw [Prod.mk.injEq] at h
            obtain ⟨hs, hr⟩ := h
            injection hr with hr
            exact Or.inl ⟨la, lj, hla, hlj, hcons, ra, rj, hra, hrj, hr.symm,
              by rw [← hr, ← hs]⟩
    case h_2 lj hla hlj =>
      split at h
      case h_1 => simp at h
      case h_2 rj hrj =>
        rw [Prod.mk.injEq] at h
        obtain ⟨hs, hr⟩ := h
        injection hr with hr
        exact Or.inr (Or.inl ⟨lj, rj, hla, hlj, hrj, hr.symm, by rw [← hr, ← hs]⟩)
    case h_3 la hla hlj =>
      split at h
      case h_1 => simp at h
      case h_2 ra hra =>
        rw [Prod.mk.injEq] at h
        obtain ⟨hs, hr⟩ := h
        injection hr with hr
        exact Or.inr (Or.inr (Or.inl ⟨la, ra, hla, hlj, hra, hr.symm, by rw [← hr, ← hs]⟩))
    case h_4 hla hlj =>
      rw [Prod.mk.injEq] at h
      obtain ⟨hs, hr⟩ := h
      injection hr with hr
      exact Or.inr (Or.inr (Or.inr ⟨hla, hlj, hs.symm, hr.symm⟩))
    case h_5 => simp at h

/-! ### C9: after a successful pass every slot is populated -/

theorem getD_node_mem_argNodes (n : Node) (k a : Nat)
    (h : n.args.getD k (.intLit 0) = .node a) : a ∈ argNodes n := by
  rw [List.getD_eq_getElem?_getD] at h
  cases hk : n.args[k]? with
  | none => rw [hk] at h; simp at h
  | some x =>
    rw [hk] at h
    simp only [Option.getD_some] at h
    subst h
    exact List.mem_filterMap.mpr ⟨.node a, List.getElem?_mem hk, rfl⟩

theorem good_refl (s : State) : ∀ k, s k = s k ∨ s k ≠ .unset := fun _ => Or.inl rfl

theorem good_upd (s0 s : State) (hs : ∀ k, s k = s0 k ∨ s k ≠ .unset)
    (i : Nat) (v : Ty) (hv : v ≠ .unset) :
    ∀ k, upd s i v k = s0 k ∨ upd s i v k ≠ .unset := by
  intro k
  by_cases hk : k = i
  · subst hk
    right
    rw [upd_same]
    exact hv
  · rw [upd_other _ _ _ _ hk]
    exact hs k

theorem good_trans (s s' s'' : State) (g1 : ∀ k, s' k = s k ∨ s' k ≠ .unset)
    (g2 : ∀ k, s'' k = s' k ∨ s'' k ≠ .unset) : ∀ k, s'' k = s k ∨ s'' k ≠ .unset := by
  intro k
  rcases g2 k with h2 | h2
  · rcases g1 k with h1 | h1
    · left; rw [h2, h1]
    · right; rw [h2]; exact h1
  · right; exact h2

theorem apply_matching_ok (t : Ty) (m : Nat) (t' : Ty) (h : apply_matching t m = .ok t') :
    ∃ l, t' = .tensor l ∧ l.length = m := by
  unfold apply_matching at h
  split at h
  · injection h with h
    exact ⟨_, h.symm, by simp⟩
  · split at h
    · split at h
      · simp at h
      · injection h with h
        rename_i l hlen _
        exact ⟨l, h.symm, by omega⟩
    · simp at h

theorem apply_matching_idem (t : Ty) (m : Nat) (t' : Ty)
    (h : apply_matching t m = .ok t') : apply_matching t' m = .ok t' := by
  obtain ⟨l, hl, hlen⟩ := apply_matching_ok t m t' h
  subst hl
  unfold apply_matching
  rw [if_neg (by simp)]
  show (if l.length ≠ m then Except.error Err.rankMismatch else Except.ok (Ty.tensor l))
      = Except.ok (Ty.tensor l)
  rw [if_neg (by omega)]

theorem broadcast_types_good (t1 t2 b1 b2 : Ty)
    (h : broadcast_types t1 t2 = .ok (b1, b2)) (h1 : t1 ≠ .unset) (h2 : t2 ≠ .unset) :
    b1 ≠ .unset ∧ b2 ≠ .unset := by
  unfold broadcast_types at h
  split at h
  · injection h with h
    rw [Prod.mk.injEq] at h
    exact ⟨h.1 ▸ h1, h.2 ▸ h2⟩
  · split at h
    case h_1 l1 l2 =>
      dsimp only [] at h
      repeat' split at h
      all_goals
        first
        | (injection h with h
           rw [Prod.mk.injEq] at h
           obtain ⟨ha, hb⟩ := h
           exact ⟨by rw [← ha]; simp, by rw [← hb]; simp⟩)
        | simp at h
    case h_2 => simp at h

theorem add_writes_good (n : Node) (j : Nat) (s s1 : State) (r : Ty)
    (h : add_inference_rule n j s = (s1, .ok r))
    (hargs : ∀ i ∈ argNodes n, s i ≠ .unset) (hj : s j ≠ .unset) :
    (∀ k, s1 k = s k ∨ s1 k ≠ .unset) ∧ s1 j ≠ .unset := by
  obtain ⟨a, b, h0, h1, hcases⟩ := add_inv n j s s1 r h
  have ha : s a ≠ .unset := hargs a (getD_node_mem_argNodes n 0 a h0)
  have hb : s b ≠ .unset := hargs b (getD_node_mem_argNodes n 1 b h1)
  rcases hcases with ⟨_, _, hs, _⟩ | ⟨_, hs, _⟩ | ⟨b1, b2, hbr, _, hr, hs⟩
  · subst hs
    exact ⟨good_upd s s (good_refl s) j (s b) hb, by rw [upd_same]; exact hb⟩
  · subst hs
    exact ⟨good_upd s s (good_refl s) j (s a) ha, by rw [upd_same]; exact ha⟩
  · obtain ⟨hb1, hb2⟩ := broadcast_types_good _ _ _ _ hbr ha hb
    have hrg : r ≠ .unset := by
      rw [hr]; split <;> assumption
    subst hs
    refine ⟨?_, by rw [upd_same]; exact hrg⟩
    exact good_upd s _ (good_upd s _ (good_upd s s (good_refl s) a b1 hb1) b b2 hb2) j r hrg

theorem transpose_writes_good (n : Node) (j : Nat) (s s1 : State) (r : Ty)
    (h : transpose_inference_rule n j s = (s1, .ok r)) (hj : s j ≠ .unset) :
    (∀ k, s1 k = s k ∨ s1 k ≠ .unset) ∧ s1 j ≠ .unset := by
  rcases transpose_inv n j s s1 r h with ⟨_, hs, _⟩ |
    ⟨_, a, d1, d2, _, _, _, ⟨_, hs, _⟩ | ⟨l, _, _, hr, hs⟩⟩
  · subst hs; exact ⟨good_refl _, hj⟩
  · subst hs
    exact ⟨good_upd s s (good_refl s) j .dyn (by simp), by rw [upd_same]; simp⟩
  · subst hs
    have : r ≠ .unset := by rw [hr]; simp
    exact ⟨good_upd s s (good_refl s) j r this, by rw [upd_same]; exact this⟩

theorem reshape_writes_good (n : Node) (j : Nat) (s s1 : State) (r : Ty)
    (h : reshape_inference_rule n j s = (s1, .ok r)) :
    (∀ k, s1 k = s k ∨ s1 k ≠ .unset) ∧ s1 j ≠ .unset := by
  obtain ⟨a, t2, _, _, hr, hs⟩ := reshape_inv n j s s1 r h
  subst hs
  have : r ≠ .unset := by rw [hr]; simp
  exact ⟨good_upd s s (good_refl s) j r this, by rw [upd_same]; exact this⟩

theorem bn2d_writes_good (n : Node) (j : Nat) (nf : Int) (s s1 : State) (r : Ty)
    (h : bn2d_inference_rule n j nf s = (s1, .ok r)) :
    (∀ k, s1 k = s k ∨ s1 k ≠ .unset) ∧ s1 j ≠ .unset := by
  obtain ⟨a, ta, tj, h0, hta, htj, hchk, hcases⟩ := bn2d_inv n j nf s s1 r h
  obtain ⟨la, hla, _⟩ := apply_matching_ok _ _ _ hta
  obtain ⟨lj, hlj, _⟩ := apply_matching_ok _ _ _ htj
  have hta' : ta ≠ .unset := by rw [hla]; simp
  have htj' : tj ≠ .unset := by rw [hlj]; simp
  rcases hcases with ⟨_, hr, hs⟩ | ⟨_, hr, hs⟩
  · subst hs
    refine ⟨?_, by rw [upd_same]; exact (hr ▸ hta')⟩
    exact good_upd s _ (good_upd s _ (good_upd s s (good_refl s) a ta hta') j tj htj') j ta hta'
  · subst hs
    refine ⟨?_, by rw [upd_same]; exact (hr ▸ htj')⟩
    exact good_upd s _ (good_upd s s (good_refl s) a ta hta') j tj htj'

theorem conv2d_writes_good (n : Node) (j : Nat) (ic oc : Int) (k st p d : IntOrPair)
    (s s1 : State) (r : Ty)
    (h : conv2d_inference_rule n j ic oc k st p d s = (s1, .ok r)) :
    (∀ k, s1 k = s k ∨ s1 k ≠ .unset) ∧ s1 j ≠ .unset := by
  obtain ⟨a, ta, tj, h0, hta, htj, hchk, h_out, w_out, _, _, hr, hs⟩ :=
    conv2d_inv n j ic oc k st p d s s1 r h
  obtain ⟨la, hla, _⟩ := apply_matching_ok _ _ _ hta
  obtain ⟨lj, hlj, _⟩ := apply_matching_ok _ _ _ htj
  have hta' : ta ≠ .unset := by rw [hla]; simp
  have htj' : tj ≠ .unset := by rw [hlj]; simp
  have hrg : r ≠ .unset := by rw [hr]; simp
  subst hs
  refine ⟨?_, by rw [upd_same]; exact hrg⟩
  exact good_upd s _ (good_upd s _ (good_upd s s (good_refl s) a ta hta') j tj htj') j r hrg

theorem relu_writes_good (n : Node) (j : Nat) (s s1 : State) (r : Ty)
    (h : relu_inference_rule n j s = (s1, .ok r))
    (hargs : ∀ i ∈ argNodes n, s i ≠ .unset) (hj : s j ≠ .unset) :
    (∀ k, s1 k = s k ∨ s1 k ≠ .unset) ∧ s1 j ≠ .unset := by
  obtain ⟨a, h0, _, hcases⟩ := relu_inv n j s s1 r h
  have ha : s a ≠ .unset := hargs a (getD_node_mem_argNodes n 0 a h0)
  rcases hcases with ⟨_, hs, _⟩ | ⟨_, hs, _⟩
  · subst hs
    exact ⟨good_upd s s (good_refl s) j (s a) ha, by rw [upd_same]; exact ha⟩
  · subst hs
    exact ⟨good_refl _, hj⟩

theorem maxpool2d_writes_good (n : Node) (j : Nat) (k st p d : IntOrPair)
    (s s1 : State) (r : Ty)
    (h : maxpool2d_inference_rule n j k st p d s = (s1, .ok r)) :
    (∀ k, s1 k = s k ∨ s1 k ≠ .unset) ∧ s1 j ≠ .unset := by
  obtain ⟨a, ta, tj, h0, hta, htj, hchk, h_out, w_out, _, _, hr, hs⟩ :=
    maxpool2d_inv n j k st p d s s1 r h
  obtain ⟨la, hla, _⟩ := apply_matching_ok _ _ _ hta
  obtain ⟨lj, hlj, _⟩ := apply_matching_ok _ _ _ htj
  have hta' : ta ≠ .unset := by rw [hla]; simp
  have htj' : tj ≠ .unset := by rw [hlj]; simp
  have hrg : r ≠ .unset := by rw [hr]; simp
  subst hs
  refine ⟨?_, by rw [upd_same]; exact hrg⟩
  exact good_upd s _ (good_upd s _ (good_upd s s (good_refl s) a ta hta') j tj htj') j r hrg

theorem linear_writes_good (n : Node) (j : Nat) (i o : Int) (s s1 : State) (r : Ty)
    (h : linear_inference_rule n j i o s = (s1, .ok r)) :
    (∀ k, s1 k = s k ∨ s1 k ≠ .unset) ∧ s1 j ≠ .unset := by
  obtain ⟨a, h0, hcases⟩ := linear_inv n j i o s s1 r h
  rcases hcases with ⟨la, lj, _, _, _, ra, rj, _, _, hr, hs⟩ |
    ⟨la, ra, _, _, _, hr, hs⟩ | ⟨lj, rj, _, _, _, hr, hs⟩ | ⟨_, hsj, hs, hr⟩
  · subst hs
    have hrg : r ≠ .unset := by rw [hr]; split <;> simp
    exact ⟨good_upd s s (good_refl s) j r hrg, by rw [upd_same]; exact hrg⟩
  · subst hs
    have hrg : r ≠ .unset := by rw [hr]; simp
    exact ⟨good_upd s s (good_refl s) j r hrg, by rw [upd_same]; exact hrg⟩
  · subst hs
    have hrg : r ≠ .unset := by rw [hr]; simp
    exact ⟨good_upd s s (good_refl s) j r hrg, by rw [upd_same]; exact hrg⟩
  · subst hs
    exact ⟨good_refl _, by rw [hsj]; simp⟩

theorem avgpool2d_writes_good (n : Node) (j : Nat) (os : AvgSize) (s s1 : State) (r : Ty)
    (h : adaptiveavgpool2d_inference_rule n j os s = (s1, .ok r)) :
    (∀ k, s1 k = s k ∨ s1 k ≠ .unset) ∧ s1 j ≠ .unset := by
  obtain ⟨a, h0, hcases⟩ := avgpool2d_inv n j os s s1 r h
  rcases hcases with ⟨la, lj, _, _, _, ra, rj, _, _, hr, hs⟩ |
    ⟨lj, rj, _, _, _, hr, hs⟩ | ⟨la, ra, _, _, _, hr, hs⟩ | ⟨_, hsj, hs, hr⟩
  · subst hs
    have hrg : r ≠ .unset := by rw [hr]; split <;> simp
    exact ⟨good_upd s s (good_refl s) j r hrg, by rw [upd_same]; exact hrg⟩
  · subst hs
    have hrg : r ≠ .unset := by rw [hr]; simp
    exact ⟨good_upd s s (good_refl s) j r hrg, by rw [upd_same]; exact hrg⟩
  · subst hs
    have hrg : r ≠ .unset := by rw [hr]; simp
    exact ⟨good_upd s s (good_refl s) j r hrg, by rw [upd_same]; exact hrg⟩
  · subst hs
    exact ⟨good_refl _, by rw [hsj]; simp⟩

theorem type_check_node_good (reg : Registry) (env : String → OpModule) (n : Node)
    (j : Nat) (s s1 : State) (r : Ty)
    (h : type_check_node reg env n j s = (s1, .ok r))
    (hargs : ∀ i ∈ argNodes n, s i ≠ .unset) :
    (∀ k, s1 k = s k ∨ s1 k ≠ .unset) ∧ s1 j ≠ .unset := by
  unfold type_check_node at h
  dsimp only [] at h
  set w := (if s j = Ty.unset then upd s j Ty.dyn else s) with hw
  have hwgood : ∀ k, w k = s k ∨ w k ≠ .unset := by
    intro k
    rw [hw]
    by_cases hu : s j = .unset
    · rw [if_pos hu]
      by_cases hk : k = j
      · subst hk; right; rw [upd_same]; simp
      · left; exact upd_other _ _ _ _ hk
    · rw [if_neg hu]; left; rfl
  have hwj : w j ≠ .unset := by
    rw [hw]
    by_cases hu : s j = .unset
    · rw [if_pos hu, upd_same]; simp
    · rw [if_neg hu]; exact hu
  have hwargs : ∀ i ∈ argNodes n, w i ≠ .unset := by
    intro i hi
    rcases hwgood i with hh | hh
    · rw [hh]; exact hargs i hi
    · exact hh
  split at h
  case h_1 =>
    rw [Prod.mk.injEq] at h
    obtain ⟨hs, _⟩ := h
    exact ⟨hs ▸ hwgood, hs ▸ hwj⟩
  case h_4 =>
    split at h
    case h_2 => simp at h
    case h_1 i heq0 =>
      rw [Prod.mk.injEq] at h
      obtain ⟨hs, _⟩ := h
      have hig : w i ≠ .unset := hwargs i (getD_node_mem_argNodes n 0 i heq0)
      refine ⟨hs ▸ good_upd s w hwgood j (w i) hig, hs ▸ ?_⟩
      rw [upd_same]
      exact hig
  case h_5 => simp at h
  all_goals
    (split at h
     case h_2 => simp at h
     case h_1 =>
       split at h
       case h_2 => simp at h
       case h_1 rid hlook =>
         unfold applyRule at h
         split at h
         case h_1 =>
           obtain ⟨g, gj⟩ := add_writes_good _ _ _ _ _ h hwargs hwj
           exact ⟨good_trans s w s1 hwgood g, gj⟩
         case h_2 =>
           obtain ⟨g, gj⟩ := transpose_writes_good _ _ _ _ _ h hwj
           exact ⟨good_trans s w s1 hwgood g, gj⟩
         case h_3 =>
           obtain ⟨g, gj⟩ := reshape_writes_good _ _ _ _ _ h
           exact ⟨good_trans s w s1 hwgood g, gj⟩
         case h_4 =>
           obtain ⟨g, gj⟩ := bn2d_writes_good _ _ _ _ _ _ h
           exact ⟨good_trans s w s1 hwgood g, gj⟩
         case h_5 =>
           obtain ⟨g, gj⟩ := conv2d_writes_good _ _ _ _ _ _ _ _ _ _ _ h
           exact ⟨good_trans s w s1 hwgood g, gj⟩
         case h_6 =>
           obtain ⟨g, gj⟩ := relu_writes_good _ _ _ _ _ h hwargs hwj
           exact ⟨good_trans s w s1 hwgood g, gj⟩
         case h_7 =>
           obtain ⟨g, gj⟩ := maxpool2d_writes_good _ _ _ _ _ _ _ _ _ h
           exact ⟨good_trans s w s1 hwgood g, gj⟩
         case h_8 =>
           obtain ⟨g, gj⟩ := linear_writes_good _ _ _ _ _ _ _ h
           exact ⟨good_trans s w s1 hwgood g, gj⟩
         case h_9 =>
           obtain ⟨g, gj⟩ := avgpool2d_writes_good _ _ _ _ _ _ h
           exact ⟨good_trans s w s1 hwgood g, gj⟩
         case h_10 => simp at h)

theorem runNodes_good (reg : Registry) (env : String → OpModule) :
    ∀ (nodes : List Node) (j0 : Nat) (s s' : State),
    (∀ k (hk : k < nodes.length), ∀ i ∈ argNodes (nodes.get ⟨k, hk⟩), i < j0 + k) →
    (∀ i, i < j0 → s i ≠ .unset) →
    runNodes reg env nodes j0 s = (s', .ok true) →
    ∀ i, i < j0 + nodes.length → s' i ≠ .unset := by
  intro nodes
  induction nodes with
  | nil =>
    intro j0 s s' _ hpre h i hi
    unfold runNodes at h
    rw [Prod.mk.injEq] at h
    obtain ⟨hs, _⟩ := h
    subst hs
    exact hpre i (by simpa using hi)
  | cons nd rest ih =>
    intro j0 s s' htopo hpre h i hi
    unfold runNodes at h
    split at h
    case h_2 => simp at h
    case h_1 s1 ty heq =>
      have hargs : ∀ i2 ∈ argNodes nd, s i2 ≠ .unset := by
        intro i2 hi2
        have hlt := htopo 0 (by simp) i2 hi2
        exact hpre i2 (by omega)
      obtain ⟨g, gj⟩ := type_check_node_good reg env nd j0 s s1 ty heq hargs
      have hpre' : ∀ i2, i2 < j0 + 1 → s1 i2 ≠ .unset := by
        intro i2 hi2
        by_cases hij : i2 = j0
        · subst hij; exact gj
        · rcases g i2 with hg | hg
          · rw [hg]; exact hpre i2 (by omega)
          · exact hg
      have htopo' : ∀ k (hk : k < rest.length), ∀ i2 ∈ argNodes (rest.get ⟨k, hk⟩),
          i2 < (j0 + 1) + k := by
        intro k hk i2 hi2
        have hlt := htopo (k + 1) (by simpa using Nat.succ_lt_succ hk) i2 hi2
        omega
      have hres := ih (j0 + 1) s1 s' htopo' hpre' h
      exact hres i (by simp at hi ⊢; omega)

/-- C9: after a successful full pass over a graph whose nodes only reference
earlier nodes, every node's type slot holds Dyn, a TensorType or Scalar-Int,
never the unset marker; and type_check_node replaces an unset slot with Dyn
before dispatching, for every op kind. -/
theorem type_check_types_populated
    (reg : Registry) (env : String → OpModule) (g : List Node) (s s' : State)
    (htopo : ∀ k (hk : k < g.length), ∀ i ∈ argNodes (g.get ⟨k, hk⟩), i < k)
    (h : type_check reg env g s = (s', .ok true)) :
    (∀ i, i < g.length → s' i ≠ .unset)
    ∧ (∀ (reg' : Registry) (env' : String → OpModule) (n : Node) (j : Nat) (u : State),
        u j = .unset →
        type_check_node reg' env' n j u = type_check_node reg' env' n j (upd u j .dyn)) := by
  constructor
  · intro i hi
    have := runNodes_good reg env g 0 s s' (by simpa using htopo) (by omega) h
    exact this i (by simpa using hi)
  · intro reg' env' n j u hu
    unfold type_check_node
    rw [if_pos hu, if_neg (by rw [upd_same]; simp)]

/-- C9 witness: the populated-slots component applied to the running example
graph, whose pass succeeds. -/
theorem type_check_types_populated_witness :
    (type_check defaultRegistry envC1 gC1 sC1).1 0 ≠ .unset
    ∧ (type_check defaultRegistry envC1 gC1 sC1).1 1 ≠ .unset
    ∧ (type_check defaultRegistry envC1 gC1 sC1).1 2 ≠ .unset :=
  have h := (type_check_types_populated defaultRegistry envC1 gC1 sC1
    (type_check defaultRegistry envC1 gC1 sC1).1 (by decide) rfl).1
  ⟨h 0 (by decide), h 1 (by decide), h 2 (by decide)⟩

/-! ### C1: stability of re-checking -/

theorem matchPair_idem (p : Dim × Dim) : matchPair (matchPair p) = matchPair p := by
  rcases p with ⟨x, y⟩
  unfold matchPair
  by_cases hx : x = .nint 1
  · subst hx
    by_cases hy : y = .nint 1 <;> simp [hy]
  · by_cases hy : y = .nint 1
    · subst hy
      simp [hx]
    · simp [hx, hy]

theorem matchPair_diag (x : Dim) : matchPair (x, x) = (x, x) := by
  unfold matchPair
  by_cases hx : x = .nint 1 <;> simp [hx]

theorem zip_map_fst_snd {α : Type} (z : List (α × α)) :
    (z.map Prod.fst).zip (z.map Prod.snd) = z := by
  induction z with
  | nil => rfl
  | cons p t ih => simp [List.zip_cons_cons, ih]

theorem broadcast_types_shape (t1 t2 b1 b2 : Ty)
    (h : broadcast_types t1 t2 = .ok (b1, b2)) :
    ((t1 = .dyn ∨ t2 = .dyn) ∧ b1 = t1 ∧ b2 = t2)
    ∨ (∃ l1 l2 r1 r2, t1 = .tensor l1 ∧ t2 = .tensor l2
        ∧ b1 = .tensor r1 ∧ b2 = .tensor r2) := by
  unfold broadcast_types at h
  split at h
  case isTrue hd =>
    injection h with h
    rw [Prod.mk.injEq] at h
    exact Or.inl ⟨hd, h.1.symm, h.2.symm⟩
  case isFalse hd =>
    split at h
    case h_1 l1 l2 =>
      dsimp only [] at h
      repeat' split at h
      all_goals
        first
        | (injection h with h
           rw [Prod.mk.injEq] at h
           exact Or.inr ⟨l1, l2, _, _, rfl, rfl, h.1.symm, h.2.symm⟩)
        | simp at h
    case h_2 => simp at h

theorem broadcast_types_guard_err (l1 l2 : List Dim)
    (hg : 1 < max (l1.length - l2.length) (l2.length - l1.length)
      ∨ l1.length = 0 ∨ l2.length = 0) :
    broadcast_types (.tensor l1) (.tensor l2) = .error .broadcastError := by
  unfold broadcast_types
  rw [if_neg (by simp)]
  show (if 1 < max (l1.length - l2.length) (l2.length - l1.length)
      ∨ l1.length = 0 ∨ l2.length = 0
    then Except.error Err.broadcastError else _) = _
  rw [if_pos hg]

theorem broadcast_types_idem (t1 t2 b1 b2 : Ty)
    (h : broadcast_types t1 t2 = .ok (b1, b2)) :
    broadcast_types b1 b2 = .ok (b1, b2) := by
  rcases broadcast_types_shape t1 t2 b1 b2 h with ⟨hd, h1, h2⟩ | ⟨l1, l2, r1, r2, h1, h2, h3, h4⟩
  · subst h1; subst h2
    unfold broadcast_types
    rw [if_pos hd]
  · subst h1; subst h2; subst h3; subst h4
    by_cases hguard : 1 < max (l1.length - l2.length) (l2.length - l1.length)
        ∨ l1.length = 0 ∨ l2.length = 0
    · rw [broadcast_types_guard_err l1 l2 hguard] at h
      simp at h
    · push_neg at hguard
      obtain ⟨hgap, hn1, hn2⟩ := hguard
      rw [broadcast_types_tensor l1 l2 hn1 hn2 hgap] at h
      set Z := ((if l1.length < l2.length then l2.headD Dim.dyn :: l1 else l1).zip
          (if l2.length < l1.length then l1.headD Dim.dyn :: l2 else l2)).map matchPair with hZ
      split at h
      next => simp at h
      next hip =>
        injection h with h
        rw [Prod.mk.injEq] at h
        obtain ⟨hr1, hr2⟩ := h
        injection hr1 with hr1
        injection hr2 with hr2
        subst hr1; subst hr2
        have hlen : (Z.map Prod.fst).length = (Z.map Prod.snd).length := by simp
        have hpos : (Z.map Prod.fst).length ≠ 0 := by
          rw [hZ]
          simp only [List.length_map, List.length_zip]
          have e1 : (if l1.length < l2.length then l2.headD Dim.dyn :: l1 else l1).length
              ≠ 0 := by
            split
            · simp
            · exact hn1
          have e2 : (if l2.length < l1.length then l1.headD Dim.dyn :: l2 else l2).length
              ≠ 0 := by
            split
            · simp
            · exact hn2
          omega
        have hpos2 : (Z.map Prod.snd).length ≠ 0 := hlen ▸ hpos
        have hgap2 : max ((Z.map Prod.fst).length - (Z.map Prod.snd).length)
            ((Z.map Prod.snd).length - (Z.map Prod.fst).length) ≤ 1 := by
          rw [hlen]
          simp
        have hlt1 : ¬((Z.map Prod.fst).length < (Z.map Prod.snd).length) := by
          rw [hlen]
          exact lt_irrefl _
        have hlt2 : ¬((Z.map Prod.snd).length < (Z.map Prod.fst).length) := by
          rw [hlen]
          exact lt_irrefl _
        rw [broadcast_types_tensor (Z.map Prod.fst) (Z.map Prod.snd) hpos hpos2 hgap2]
        rw [if_neg hlt1, if_neg hlt2, zip_map_fst_snd Z]
        have hzmp : Z.map matchPair = Z := by
          rw [hZ, List.map_map]
          exact List.map_congr_left fun p _ => matchPair_idem p
        rw [hzmp]
        rw [if_neg (by simp)]

theorem broadcast_types_self_eq (t b1 b2 : Ty) (h : broadcast_types t t = .ok (b1, b2)) :
    b1 = b2 := by
  rcases broadcast_types_shape t t b1 b2 h with ⟨_, h1, h2⟩ |
    ⟨l1, l2, r1, r2, h1, h2, h3, h4⟩
  · rw [h1, h2]
  · rw [h1] at h2
    injection h2 with hl
    subst hl
    subst h1; subst h3; subst h4
    by_cases hn : l1.length = 0
    · rw [broadcast_types_guard_err l1 l1 (Or.inr (Or.inl hn))] at h
      simp at h
    · rw [broadcast_types_tensor l1 l1 hn hn (by simp)] at h
      rw [if_neg (lt_irrefl _)] at h
      set Z := (l1.zip l1).map matchPair with hZ
      split at h
      next => simp at h
      next =>
        injection h with h
        rw [Prod.mk.injEq] at h
        obtain ⟨hr1, hr2⟩ := h
        injection hr1 with hr1
        injection hr2 with hr2
        subst hr1; subst hr2
        congr 1
        rw [hZ, List.map_map, List.map_map]
        refine List.map_congr_left fun p hp => ?_
        have hpe := zip_self_mem l1 p hp
        rcases p with ⟨x, y⟩
        simp only at hpe
        subst hpe
        simp [matchPair_diag]

theorem linear_check_inv (l : List Dim) (i o : Int) (r : List Dim)
    (h : linear_check l i o = .ok r) :
    2 ≤ l.length ∧ r = l.set (l.length - 1) (.nint o) := by
  unfold linear_check at h
  split at h
  · split at h
    · injection h with h
      exact ⟨‹_›, h.symm⟩
    · simp at h
  · simp at h

theorem linear_check_stable (l r r2 : List Dim) (i o : Int)
    (h1 : linear_check l i o = .ok r) (h2 : linear_check r i o = .ok r2) : r2 = r := by
  obtain ⟨hl, hr⟩ := linear_check_inv l i o r h1
  obtain ⟨hl2, hr2⟩ := linear_check_inv r i o r2 h2
  subst hr
  rw [hr2]
  simp [List.length_set, List.set_set]

theorem avgpool_check_inv (l : List Dim) (os : AvgSize) (r : List Dim)
    (h : adaptiveavgpool2d_check l os = .ok r) :
    (l.length = 4 ∨ l.length = 3)
    ∧ r = (l.set (l.length - 1) (dimOfOpt ((fixOutputSize os).getD 1 none))).set
        (l.length - 2) (dimOfOpt ((fixOutputSize os).getD 0 none)) := by
  unfold adaptiveavgpool2d_check at h
  dsimp only [] at h
  split at h
  · injection h with h
    exact ⟨‹_›, h.symm⟩
  · simp at h

theorem avgpool_check_stable (l r r2 : List Dim) (os : AvgSize)
    (h1 : adaptiveavgpool2d_check l os = .ok r)
    (h2 : adaptiveavgpool2d_check r os = .ok r2) : r2 = r := by
  obtain ⟨hl, hr⟩ := avgpool_check_inv l os r h1
  obtain ⟨hl2, hr2⟩ := avgpool_check_inv r os r2 h2
  have hne : l.length - 2 ≠ l.length - 1 := by
    rcases hl with h4 | h3 <;> omega
  subst hr
  rw [hr2]
  simp only [List.length_set]
  rw [List.set_comm _ _ _ hne, List.set_set, List.set_set]

theorem reshape_stable (n : Node) (j : Nat) (s s' s'' : State) (t t' : Ty)
    (h1 : reshape_inference_rule n j s = (s', .ok t))
    (h2 : reshape_inference_rule n j s' = (s'', .ok t')) :
    s'' = s' ∧ t' = t := by
  obtain ⟨a, t2, e0, e1, hr, hs⟩ := reshape_inv n j s s' t h1
  obtain ⟨a2, t22, e02, e12, hr2, hs2⟩ := reshape_inv n j s' s'' t' h2
  rw [e1] at e12
  injection e12 with ht2
  subst ht2
  have htt : t' = t := by rw [hr2, hr]
  refine ⟨?_, htt⟩
  rw [hs2, htt, hs, upd_upd]

theorem transpose_stable (n : Node) (j : Nat) (s s' s'' : State) (t t' : Ty)
    (hne : ∀ i ∈ argNodes n, i ≠ j)
    (h1 : transpose_inference_rule n j s = (s', .ok t))
    (h2 : transpose_inference_rule n j s' = (s'', .ok t')) :
    s'' = s' ∧ t' = t := by
  rcases transpose_inv n j s s' t h1 with ⟨htar, hs, ht⟩ |
    ⟨htar, a, d1, d2, e0, e1, e2, sub⟩
  · rcases transpose_inv n j s' s'' t' h2 with ⟨_, hs2, ht2⟩ | ⟨htar2, _⟩
    · exact ⟨by rw [hs2, hs], by rw [ht2, ht]⟩
    · exact absurd htar2 htar
  · have hane : a ≠ j := hne a (getD_node_mem_argNodes n 0 a e0)
    rcases transpose_inv n j s' s'' t' h2 with ⟨htar2, _⟩ |
      ⟨_, a2, d12, d22, e02, e12, e22, sub2⟩
    · exact absurd htar htar2
    · rw [e0] at e02
      injection e02 with ha
      subst ha
      rw [e1] at e12
      injection e12 with hd1
      subst hd1
      rw [e2] at e22
      injection e22 with hd2
      subst hd2
      rcases sub with ⟨hsa, hs, ht⟩ | ⟨l, hsa, hb, ht, hs⟩
      · have hsa' : s' a = .dyn := by
          rw [hs, upd_other _ _ _ _ hane, hsa]
        rcases sub2 with ⟨hsa2, hs2, ht2⟩ | ⟨l2, hsa2, _, _, _⟩
        · refine ⟨?_, by rw [ht2, ht]⟩
          rw [hs2, hs, upd_upd]
        · rw [hsa'] at hsa2
          simp at hsa2
      · have hsa' : s' a = .tensor l := by
          rw [hs, upd_other _ _ _ _ hane, hsa]
        rcases sub2 with ⟨hsa2, _, _⟩ | ⟨l2, hsa2, hb2, ht2, hs2⟩
        · rw [hsa'] at hsa2
          simp at hsa2
        · rw [hsa'] at hsa2
          injection hsa2 with hl
          subst hl
          have htt : t' = t := by rw [ht2, ht]
          refine ⟨?_, htt⟩
          rw [hs2, htt, hs, upd_upd]

theorem relu_stable (n : Node) (j : Nat) (s s' s'' : State) (t t' : Ty)
    (hne : ∀ i ∈ argNodes n, i ≠ j)
    (h1 : relu_inference_rule n j s = (s', .ok t))
    (h2 : relu_inference_rule n j s' = (s'', .ok t')) :
    s'' = s' ∧ t' = t := by
  obtain ⟨a, e0, hc, sub⟩ := relu_inv n j s s' t h1
  have hane : a ≠ j := hne a (getD_node_mem_argNodes n 0 a e0)
  obtain ⟨a2, e02, hc2, sub2⟩ := relu_inv n j s' s'' t' h2
  rw [e0] at e02
  injection e02 with ha
  subst ha
  rcases sub with ⟨hmp, hs, ht⟩ | ⟨hmp, hs, ht⟩
  · have hsa : s' a = s a := by rw [hs, upd_other _ _ _ _ hane]
    have hsj : s' j = s a := by rw [hs, upd_same]
    rcases sub2 with ⟨hmp2, hs2, ht2⟩ | ⟨hmp2, hs2, ht2⟩
    · refine ⟨?_, by rw [ht2, hsa, ht]⟩
      rw [hs2, hsa]
      exact upd_self _ _ _ hsj
    · rw [hsa, hsj, is_more_precise_refl] at hmp2
      simp at hmp2
  · subst hs
    rcases sub2 with ⟨hmp2, hs2, ht2⟩ | ⟨hmp2, hs2, ht2⟩
    · rw [hmp] at hmp2
      simp at hmp2
    · exact ⟨hs2, by rw [ht2, ht]⟩

theorem apply_matching_len (l : List Dim) (m : Nat) (hlen : l.length = m) :
    apply_matching (.tensor l) m = .ok (.tensor l) := by
  unfold apply_matching
  rw [if_neg (by simp)]
  show (if l.length ≠ m then Except.error Err.rankMismatch else Except.ok (Ty.tensor l))
      = Except.ok (Ty.tensor l)
  rw [if_neg (by omega)]

theorem bn2d_stable (n : Node) (j : Nat) (nf : Int) (s s' s'' : State) (t t' : Ty)
    (hne : ∀ i ∈ argNodes n, i ≠ j)
    (h1 : bn2d_inference_rule n j nf s = (s', .ok t))
    (h2 : bn2d_inference_rule n j nf s' = (s'', .ok t')) :
    s'' = s' ∧ t' = t := by
  obtain ⟨a, ta, tj, e0, hta, htj, hchk, sub⟩ := bn2d_inv n j nf s s' t h1
  have hane : a ≠ j := hne a (getD_node_mem_argNodes n 0 a e0)
  rw [upd_other _ _ _ _ (Ne.symm hane)] at htj
  obtain ⟨a2, ta2, tj2, e02, hta2, htj2, hchk2, sub2⟩ := bn2d_inv n j nf s' s'' t' h2
  rw [e0] at e02
  injection e02 with ha
  subst ha
  rw [upd_other _ _ _ _ (Ne.symm hane)] at htj2
  rcases sub with ⟨hmp, ht, hs⟩ | ⟨hmp, ht, hs⟩
  · have hs3 : s' = upd (upd s a ta) j ta := by rw [hs, upd_upd]
    have hsa : s' a = ta := by rw [hs3, upd_other _ _ _ _ hane, upd_same]
    have hsj : s' j = ta := by rw [hs3, upd_same]
    rw [hsa, apply_matching_idem _ _ _ hta] at hta2
    injection hta2 with e1
    subst e1
    rw [hsj, apply_matching_idem _ _ _ hta] at htj2
    injection htj2 with e2
    subst e2
    rcases sub2 with ⟨hmp2, ht2, hs2⟩ | ⟨hmp2, ht2, hs2⟩
    · refine ⟨?_, by rw [ht2, ht]⟩
      rw [hs2, upd_upd, upd_self _ _ _ hsa, upd_self _ _ _ hsj]
    · rw [is_more_precise_refl] at hmp2
      simp at hmp2
  · have hsa : s' a = ta := by rw [hs, upd_other _ _ _ _ hane, upd_same]
    have hsj : s' j = tj := by rw [hs, upd_same]
    rw [hsa, apply_matching_idem _ _ _ hta] at hta2
    injection hta2 with e1
    subst e1
    rw [hsj, apply_matching_idem _ _ _ htj] at htj2
    injection htj2 with e2
    subst e2
    rcases sub2 with ⟨hmp2, ht2, hs2⟩ | ⟨hmp2, ht2, hs2⟩
    · rw [hmp] at hmp2
      simp at hmp2
    · refine ⟨?_, by rw [ht2, ht]⟩
      rw [hs2, upd_self _ _ _ hsa, upd_self _ _ _ hsj]

theorem conv2d_stable (n : Node) (j : Nat) (ic oc : Int) (k st p d : IntOrPair)
    (s s' s'' : State) (t t' : Ty)
    (hne : ∀ i ∈ argNodes n, i ≠ j)
    (h1 : conv2d_inference_rule n j ic oc k st p d s = (s', .ok t))
    (h2 : conv2d_inference_rule n j ic oc k st p d s' = (s'', .ok t')) :
    s'' = s' ∧ t' = t := by
  obtain ⟨a, ta, tj, e0, hta, htj, hchk, h_out, w_out, hhout, hwout, ht, hs⟩ :=
    conv2d_inv n j ic oc k st p d s s' t h1
  have hane : a ≠ j := hne a (getD_node_mem_argNodes n 0 a e0)
  have hs3 : s' = upd (upd s a ta) j t := by rw [hs, upd_upd]
  have hsa : s' a = ta := by rw [hs3, upd_other _ _ _ _ hane, upd_same]
  have hsj : s' j = t := by rw [hs3, upd_same]
  obtain ⟨a2, ta2, tj2, e02, hta2, htj2, hchk2, h_out2, w_out2, hhout2, hwout2, ht2, hs2⟩ :=
    conv2d_inv n j ic oc k st p d s' s'' t' h2
  rw [e0] at e02
  injection e02 with ha
  subst ha
  rw [upd_other _ _ _ _ (Ne.symm hane)] at htj2
  rw [hsa, apply_matching_idem _ _ _ hta] at hta2
  injection hta2 with e1
  subst e1
  have hmt : apply_matching t 4 = .ok t := by
    rw [ht]
    exact apply_matching_len _ _ (by simp)
  rw [hsj, hmt] at htj2
  injection htj2 with e2
  subst e2
  rw [hhout] at hhout2
  injection hhout2 with e3
  subst e3
  rw [hwout] at hwout2
  injection hwout2 with e4
  subst e4
  have htt : t' = t := by rw [ht2, ht]
  refine ⟨?_, htt⟩
  rw [hs2, htt, upd_upd, upd_self _ _ _ hsa, upd_self _ _ _ hsj]

theorem maxpool2d_stable (n : Node) (j : Nat) (k st p d : IntOrPair)
    (s s' s'' : State) (t t' : Ty)
    (hne : ∀ i ∈ argNodes n, i ≠ j)
    (h1 : maxpool2d_inference_rule n j k st p d s = (s', .ok t))
    (h2 : maxpool2d_inference_rule n j k st p d s' = (s'', .ok t')) :
    s'' = s' ∧ t' = t := by
  obtain ⟨a, ta, tj, e0, hta, htj, hchk, h_out, w_out, hhout, hwout, ht, hs⟩ :=
    maxpool2d_inv n j k st p d s s' t h1
  have hane : a ≠ j := hne a (getD_node_mem_argNodes n 0 a e0)
  have hs3 : s' = upd (upd s a ta) j t := by rw [hs, upd_upd]
  have hsa : s' a = ta := by rw [hs3, upd_other _ _ _ _ hane, upd_same]
  have hsj : s' j = t := by rw [hs3, upd_same]
  obtain ⟨a2, ta2, tj2, e02, hta2, htj2, hchk2, h_out2, w_out2, hhout2, hwout2, ht2, hs2⟩ :=
    maxpool2d_inv n j k st p d s' s'' t' h2
  rw [e0] at e02
  injection e02 with ha
  subst ha
  rw [upd_other _ _ _ _ (Ne.symm hane)] at htj2
  rw [hsa, apply_matching_idem _ _ _ hta] at hta2
  injection hta2 with e1
  subst e1
  have hmt : apply_matching t 4 = .ok t := by
    rw [ht]
    exact apply_matching_len _ _ (by simp)
  rw [hsj, hmt] at htj2
  injection htj2 with e2
  subst e2
  rw [hhout] at hhout2
  injection hhout2 with e3
  subst e3
  rw [hwout] at hwout2
  injection hwout2 with e4
  subst e4
  have htt : t' = t := by rw [ht2, ht]
  refine ⟨?_, htt⟩
  rw [hs2, htt, upd_upd, upd_self _ _ _ hsa, upd_self _ _ _ hsj]

theorem linear_stable (n : Node) (j : Nat) (i o : Int) (s s' s'' : State) (t t' : Ty)
    (hne : ∀ m ∈ argNodes n, m ≠ j)
    (h1 : linear_inference_rule n j i o s = (s', .ok t))
    (h2 : linear_inference_rule n j i o s' = (s'', .ok t')) :
    s'' = s' ∧ t' = t := by
  obtain ⟨a, e0, sub⟩ := linear_inv n j i o s s' t h1
  have hane : a ≠ j := hne a (getD_node_mem_argNodes n 0 a e0)
  obtain ⟨a2, e02, sub2⟩ := linear_inv n j i o s' s'' t' h2
  rw [e0] at e02
  injection e02 with ha
  subst ha
  rcases sub with ⟨la, lj, hla, hlj, hcons, ra, rj, hra, hrj, hr, hs⟩ |
    ⟨la, ra, hla, hlj, hra, hr, hs⟩ | ⟨lj, rj, hla, hlj, hrj, hr, hs⟩ |
    ⟨hla, hlj, hs, hr⟩
  · have hsa : s' a = .tensor la := by rw [hs, upd_other _ _ _ _ hane, hla]
    have hsj : s' j = t := by rw [hs, upd_same]
    by_cases hmp : is_more_precise (.tensor ra) (.tensor rj) = true
    · have ht0 : t = .tensor ra := by rw [hr, if_pos hmp]
      rcases sub2 with ⟨la2, lj2, hla2, hlj2, hcons2, ra2, rj2, hra2, hrj2, hr2, hs2⟩ |
        ⟨la2, ra2, hla2, hlj2, hra2, hr2, hs2⟩ | ⟨lj2, rj2, hla2, hlj2, hrj2, hr2, hs2⟩ |
        ⟨hla2, hlj2, hs2, hr2⟩
      · rw [hsa] at hla2
        injection hla2 with hl
        subst hl
        rw [hsj, ht0] at hlj2
        injection hlj2 with hl2
        subst hl2
        rw [hra] at hra2
        injection hra2 with e1
        subst e1
        have e2 : rj2 = ra := linear_check_stable la ra rj2 i o hra hrj2
        subst e2
        have htt : t' = t := by rw [hr2, ht0, ite_self]
        refine ⟨?_, htt⟩
        rw [hs2, htt]
        exact upd_self _ _ _ hsj
      · rw [hsj, ht0] at hlj2
        simp at hlj2
      · rw [hsa] at hla2
        simp at hla2
      · rw [hsa] at hla2
        simp at hla2
    · have ht0 : t = .tensor rj := by rw [hr, if_neg hmp]
      rcases sub2 with ⟨la2, lj2, hla2, hlj2, hcons2, ra2, rj2, hra2, hrj2, hr2, hs2⟩ |
        ⟨la2, ra2, hla2, hlj2, hra2, hr2, hs2⟩ | ⟨lj2, rj2, hla2, hlj2, hrj2, hr2, hs2⟩ |
        ⟨hla2, hlj2, hs2, hr2⟩
      · rw [hsa] at hla2
        injection hla2 with hl
        subst hl
        rw [hsj, ht0] at hlj2
        injection hlj2 with hl2
        subst hl2
        rw [hra] at hra2
        injection hra2 with e1
        subst e1
        have e2 : rj2 = rj := linear_check_stable lj rj rj2 i o hrj hrj2
        subst e2
        have htt : t' = t := by rw [hr2, ht0, if_neg hmp]
        refine ⟨?_, htt⟩
        rw [hs2, htt]
        exact upd_self _ _ _ hsj
      · rw [hsj, ht0] at hlj2
        simp at hlj2
      · rw [hsa] at hla2
        simp at hla2
      · rw [hsa] at hla2
        simp at hla2
  · have hsa : s' a = .tensor la := by rw [hs, upd_other _ _ _ _ hane, hla]
    have hsj : s' j = .tensor ra := by rw [hs, upd_same, hr]
    rcases sub2 with ⟨la2, lj2, hla2, hlj2, hcons2, ra2, rj2, hra2, hrj2, hr2, hs2⟩ |
      ⟨la2, ra2, hla2, hlj2, hra2, hr2, hs2⟩ | ⟨lj2, rj2, hla2, hlj2, hrj2, hr2, hs2⟩ |
      ⟨hla2, hlj2, hs2, hr2⟩
    · rw [hsa] at hla2
      injection hla2 with hl
      subst hl
      rw [hsj] at hlj2
      injection hlj2 with hl2
      subst hl2
      rw [hra] at hra2
      injection hra2 with e1
      subst e1
      have e2 : rj2 = ra := linear_check_stable la ra rj2 i o hra hrj2
      subst e2
      have htt : t' = t := by rw [hr2, ite_self, hr]
      refine ⟨?_, htt⟩
      rw [hs2, htt, hr]
      exact upd_self _ _ _ hsj
    · rw [hsj] at hlj2
      simp at hlj2
    · rw [hsa] at hla2
      simp at hla2
    · rw [hsa] at hla2
      simp at hla2
  · have hsa : s' a = .dyn := by rw [hs, upd_other _ _ _ _ hane, hla]
    have hsj : s' j = .tensor rj := by rw [hs, upd_same, hr]
    rcases sub2 with ⟨la2, lj2, hla2, hlj2, hcons2, ra2, rj2, hra2, hrj2, hr2, hs2⟩ |
      ⟨la2, ra2, hla2, hlj2, hra2, hr2, hs2⟩ | ⟨lj2, rj2, hla2, hlj2, hrj2, hr2, hs2⟩ |
      ⟨hla2, hlj2, hs2, hr2⟩
    · rw [hsa] at hla2
      simp at hla2
    · rw [hsa] at hla2
      simp at hla2
    · rw [hsj] at hlj2
      injection hlj2 with hl2
      subst hl2
      have e2 : rj2 = rj := linear_check_stable lj rj rj2 i o hrj hrj2
      subst e2
      have htt : t' = t := by rw [hr2, hr]
      refine ⟨?_, htt⟩
      rw [hs2, htt, hr]
      exact upd_self _ _ _ hsj
    · rw [hsj] at hlj2
      simp at hlj2
  · subst hs
    rcases sub2 with ⟨la2, lj2, hla2, hlj2, hcons2, ra2, rj2, hra2, hrj2, hr2, hs2⟩ |
      ⟨la2, ra2, hla2, hlj2, hra2, hr2, hs2⟩ | ⟨lj2, rj2, hla2, hlj2, hrj2, hr2, hs2⟩ |
      ⟨hla2, hlj2, hs2, hr2⟩
    · rw [hla] at hla2
      simp at hla2
    · rw [hla] at hla2
      simp at hla2
    · rw [hlj] at hlj2
      simp at hlj2
    · exact ⟨hs2, by rw [hr2, hr]⟩

theorem avgpool2d_stable (n : Node) (j : Nat) (os : AvgSize) (s s' s'' : State) (t t' : Ty)
    (hne : ∀ m ∈ argNodes n, m ≠ j)
    (h1 : adaptiveavgpool2d_inference_rule n j os s = (s', .ok t))
    (h2 : adaptiveavgpool2d_inference_rule n j os s' = (s'', .ok t')) :
    s'' = s' ∧ t' = t := by
  obtain ⟨a, e0, sub⟩ := avgpool2d_inv n j os s s' t h1
  have hane : a ≠ j := hne a (getD_node_mem_argNodes n 0 a e0)
  obtain ⟨a2, e02, sub2⟩ := avgpool2d_inv n j os s' s'' t' h2
  rw [e0] at e02
  injection e02 with ha
  subst ha
  rcases sub with ⟨la, lj, hla, hlj, hcons, ra, rj, hra, hrj, hr, hs⟩ |
    ⟨lj, rj, hla, hlj, hrj, hr, hs⟩ | ⟨la, ra, hla, hlj, hra, hr, hs⟩ |
    ⟨hla, hlj, hs, hr⟩
  · have hsa : s' a = .tensor la := by rw [hs, upd_other _ _ _ _ hane, hla]
    have hsj : s' j = t := by rw [hs, upd_same]
    by_cases hmp : is_more_precise (.tensor ra) (.tensor rj) = true
    · have ht0 : t = .tensor ra := by rw [hr, if_pos hmp]
      rcases sub2 with ⟨la2, lj2, hla2, hlj2, hcons2, ra2, rj2, hra2, hrj2, hr2, hs2⟩ |
        ⟨lj2, rj2, hla2, hlj2, hrj2, hr2, hs2⟩ | ⟨la2, ra2, hla2, hlj2, hra2, hr2, hs2⟩ |
        ⟨hla2, hlj2, hs2, hr2⟩
      · rw [hsa] at hla2
        injection hla2 with hl
        subst hl
        rw [hsj, ht0] at hlj2
        injection hlj2 with hl2
        subst hl2
        rw [hra] at hra2
        injection hra2 with e1
        subst e1
        have e2 : rj2 = ra := avgpool_check_stable la ra rj2 os hra hrj2
        subst e2
        have htt : t' = t := by rw [hr2, ht0, ite_self]
        refine ⟨?_, htt⟩
        rw [hs2, htt]
        exact upd_self _ _ _ hsj
      · rw [hsa] at hla2
        simp at hla2
      · rw [hsj, ht0] at hlj2
        simp at hlj2
      · rw [hsa] at hla2
        simp at hla2
    · have ht0 : t = .tensor rj := by rw [hr, if_neg hmp]
      rcases sub2 with ⟨la2, lj2, hla2, hlj2, hcons2, ra2, rj2, hra2, hrj2, hr2, hs2⟩ |
        ⟨lj2, rj2, hla2, hlj2, hrj2, hr2, hs2⟩ | ⟨la2, ra2, hla2, hlj2, hra2, hr2, hs2⟩ |
        ⟨hla2, hlj2, hs2, hr2⟩
      · rw [hsa] at hla2
        injection hla2 with hl
        subst hl
        rw [hsj, ht0] at hlj2
        injection hlj2 with hl2
        subst hl2
        rw [hra] at hra2
        injection hra2 with e1
        subst e1
        have e2 : rj2 = rj := avgpool_check_stable lj rj rj2 os hrj hrj2
        subst e2
        have htt : t' = t := by rw [hr2, ht0, if_neg hmp]
        refine ⟨?_, htt⟩
        rw [hs2, htt]
        exact upd_self _ _ _ hsj
      · rw [hsa] at hla2
        simp at hla2
      · rw [hsj, ht0] at hlj2
        simp at hlj2
      · rw [hsa] at hla2
        simp at hla2
  · have hsa : s' a = .dyn := by rw [hs, upd_other _ _ _ _ hane, hla]
    have hsj : s' j = .tensor rj := by rw [hs, upd_same, hr]
    rcases sub2 with ⟨la2, lj2, hla2, hlj2, hcons2, ra2, rj2, hra2, hrj2, hr2, hs2⟩ |
      ⟨lj2, rj2, hla2, hlj2, hrj2, hr2, hs2⟩ | ⟨la2, ra2, hla2, hlj2, hra2, hr2, hs2⟩ |
      ⟨hla2, hlj2, hs2, hr2⟩
    · rw [hsa] at hla2
      simp at hla2
    · rw [hsj] at hlj2
      injection hlj2 with hl2
      subst hl2
      have e2 : rj2 = rj := avgpool_check_stable lj rj rj2 os hrj hrj2
      subst e2
      have htt : t' = t := by rw [hr2, hr]
      refine ⟨?_, htt⟩
      rw [hs2, htt, hr]
      exact upd_self _ _ _ hsj
    · rw [hsa] at hla2
      simp at hla2
    · rw [hsj] at hlj2
      simp at hlj2
  · have hsa : s' a = .tensor la := by rw [hs, upd_other _ _ _ _ hane, hla]
    have hsj : s' j = .tensor ra := by rw [hs, upd_same, hr]
    rcases sub2 with ⟨la2, lj2, hla2, hlj2, hcons2, ra2, rj2, hra2, hrj2, hr2, hs2⟩ |
      ⟨lj2, rj2, hla2, hlj2, hrj2, hr2, hs2⟩ | ⟨la2, ra2, hla2, hlj2, hra2, hr2, hs2⟩ |
      ⟨hla2, hlj2, hs2, hr2⟩
    · rw [hsa] at hla2
      injection hla2 with hl
      subst hl
      rw [hsj] at hlj2
      injection hlj2 with hl2
      subst hl2
      rw [hra] at hra2
      injection hra2 with e1
      subst e1
      have e2 : rj2 = ra := avgpool_check_stable la ra rj2 os hra hrj2
      subst e2
      have htt : t' = t := by rw [hr2, ite_self, hr]
      refine ⟨?_, htt⟩
      rw [hs2, htt, hr]
      exact upd_self _ _ _ hsj
    · rw [hsa] at hla2
      simp at hla2
    · rw [hsj] at hlj2
      simp at hlj2
    · rw [hsa] at hla2
      simp at hla2
  · subst hs
    rcases sub2 with ⟨la2, lj2, hla2, hlj2, hcons2, ra2, rj2, hra2, hrj2, hr2, hs2⟩ |
      ⟨lj2, rj2, hla2, hlj2, hrj2, hr2, hs2⟩ | ⟨la2, ra2, hla2, hlj2, hra2, hr2, hs2⟩ |
      ⟨hla2, hlj2, hs2, hr2⟩
    · rw [hla] at hla2
      simp at hla2
    · rw [hlj] at hlj2
      simp at hlj2
    · rw [hla] at hla2
      simp at hla2
    · exact ⟨hs2, by rw [hr2, hr]⟩

theorem isTensor_exists (t : Ty) (h : t.isTensor = true) : ∃ l, t = .tensor l := by
  cases t with
  | tensor l => exact ⟨l, rfl⟩
  | dyn => simp [Ty.isTensor] at h
  | scalarInt => simp [Ty.isTensor] at h
  | unset => simp [Ty.isTensor] at h

theorem add_stable (n : Node) (j : Nat) (s s' s'' : State) (t t' : Ty)
    (hne : ∀ m ∈ argNodes n, m ≠ j)
    (h1 : add_inference_rule n j s = (s', .ok t))
    (h2 : add_inference_rule n j s' = (s'', .ok t')) :
    s'' = s' ∧ t' = t := by
  obtain ⟨a, b, e0, e1, sub⟩ := add_inv n j s s' t h1
  have hane : a ≠ j := hne a (getD_node_mem_argNodes n 0 a e0)
  have hbne : b ≠ j := hne b (getD_node_mem_argNodes n 1 b e1)
  obtain ⟨a2, b2n, e02, e12, sub2⟩ := add_inv n j s' s'' t' h2
  rw [e0] at e02
  injection e02 with ha
  subst ha
  rw [e1] at e12
  injection e12 with hb
  subst hb
  rcases sub with ⟨hsa0, hbt, hs, ht⟩ | ⟨⟨hsb0, hat⟩, hs, ht⟩ |
    ⟨b1, b2, hbr, hcons, ht, hs⟩
  · obtain ⟨lb, hlb⟩ := isTensor_exists _ hbt
    have hsa : s' a = .scalarInt := by rw [hs, upd_other _ _ _ _ hane, hsa0]
    have hsb : s' b = .tensor lb := by rw [hs, upd_other _ _ _ _ hbne, hlb]
    have hsj : s' j = .tensor lb := by rw [hs, upd_same, hlb]
    rcases sub2 with ⟨hsa2, hbt2, hs2, ht2⟩ | ⟨⟨hsb2, hat2⟩, hs2, ht2⟩ |
      ⟨b12, b22, hbr2, hcons2, ht2, hs2⟩
    · refine ⟨?_, by rw [ht2, hsb, ht, hlb]⟩
      rw [hs2, hsb]
      exact upd_self _ _ _ hsj
    · rw [hsb] at hsb2
      simp at hsb2
    · rw [hsa, hsb] at hbr2
      rcases broadcast_types_shape _ _ _ _ hbr2 with ⟨hd, _, _⟩ |
        ⟨l1, l2, r1, r2, he1, _, _, _⟩
      · rcases hd with hd | hd <;> simp at hd
      · simp at he1
  · obtain ⟨la, hla⟩ := isTensor_exists _ hat
    have hsa : s' a = .tensor la := by rw [hs, upd_other _ _ _ _ hane, hla]
    have hsb : s' b = .scalarInt := by rw [hs, upd_other _ _ _ _ hbne, hsb0]
    have hsj : s' j = .tensor la := by rw [hs, upd_same, hla]
    rcases sub2 with ⟨hsa2, hbt2, hs2, ht2⟩ | ⟨⟨hsb2, hat2⟩, hs2, ht2⟩ |
      ⟨b12, b22, hbr2, hcons2, ht2, hs2⟩
    · rw [hsa] at hsa2
      simp at hsa2
    · refine ⟨?_, by rw [ht2, hsa, ht, hla]⟩
      rw [hs2, hsa]
      exact upd_self _ _ _ hsj
    · rw [hsa, hsb] at hbr2
      rcases broadcast_types_shape _ _ _ _ hbr2 with ⟨hd, _, _⟩ |
        ⟨l1, l2, r1, r2, _, he2, _, _⟩
      · rcases hd with hd | hd <;> simp at hd
      · simp at he2
  · have hidem : broadcast_types b1 b2 = .ok (b1, b2) := broadcast_types_idem _ _ _ _ hbr
    have hsj : s' j = t := by rw [hs, upd_same]
    have hsab : s' a = b1 ∧ s' b = b2 := by
      by_cases hab : a = b
      · subst hab
        have hb12 : b1 = b2 := broadcast_types_self_eq _ _ _ hbr
        constructor
        · rw [hs, upd_other _ _ _ _ hane, upd_upd, upd_same, ← hb12]
        · rw [hs, upd_other _ _ _ _ hane, upd_upd, upd_same]
      · constructor
        · rw [hs, upd_other _ _ _ _ hane, upd_other _ _ _ _ hab, upd_same]
        · rw [hs, upd_other _ _ _ _ hbne, upd_same]
    obtain ⟨hsa, hsb⟩ := hsab
    rcases sub2 with ⟨hsa2, hbt2, hs2, ht2⟩ | ⟨⟨hsb2, hat2⟩, hs2, ht2⟩ |
      ⟨b12, b22, hbr2, hcons2, ht2, hs2⟩
    · rw [hsa] at hsa2
      rw [hsb] at hbt2
      rcases broadcast_types_shape _ _ _ _ hbr with ⟨hd, hb1e, hb2e⟩ |
        ⟨l1, l2, r1, r2, _, _, hb1e, hb2e⟩
      · rcases hd with hd | hd
        · rw [hb1e, hd] at hsa2
          simp at hsa2
        · rw [hb2e, hd] at hbt2
          simp [Ty.isTensor] at hbt2
      · rw [hb1e] at hsa2
        simp at hsa2
    · rw [hsb] at hsb2
      rw [hsa] at hat2
      rcases broadcast_types_shape _ _ _ _ hbr with ⟨hd, hb1e, hb2e⟩ |
        ⟨l1, l2, r1, r2, _, _, hb1e, hb2e⟩
      · rcases hd with hd | hd
        · rw [hb1e, hd] at hat2
          simp [Ty.isTensor] at hat2
        · rw [hb2e, hd] at hsb2
          simp at hsb2
      · rw [hb2e] at hsb2
        simp at hsb2
    · rw [hsa, hsb, hidem] at hbr2
      injection hbr2 with hp
      rw [Prod.mk.injEq] at hp
      obtain ⟨hp1, hp2⟩ := hp
      subst hp1
      subst hp2
      have htt : t' = t := by rw [ht2, ht]
      refine ⟨?_, htt⟩
      rw [hs2, htt]
      by_cases hab : a = b
      · subst hab
        rw [upd_upd, upd_self _ _ _ hsb]
        exact upd_self _ _ _ hsj
      · rw [upd_self _ _ _ hsa, upd_self _ _ _ hsb]
        exact upd_self _ _ _ hsj

theorem applyRule_stable (rid : RuleId) (n : Node) (j : Nat) (m : Option OpModule)
    (s s' s'' : State) (t t' : Ty)
    (hne : ∀ k ∈ argNodes n, k ≠ j)
    (h1 : applyRule rid n j m s = (s', .ok t))
    (h2 : applyRule rid n j m s' = (s'', .ok t')) :
    s'' = s' ∧ t' = t := by
  unfold applyRule at h1 h2
  split at h1
  case h_1 => exact add_stable n j s s' s'' t t' hne h1 h2
  case h_2 => exact transpose_stable n j s s' s'' t t' hne h1 h2
  case h_3 => exact reshape_stable n j s s' s'' t t' h1 h2
  case h_4 nf => exact bn2d_stable n j nf s s' s'' t t' hne h1 h2
  case h_5 ic oc k st p d => exact conv2d_stable n j ic oc k st p d s s' s'' t t' hne h1 h2
  case h_6 => exact relu_stable n j s s' s'' t t' hne h1 h2
  case h_7 k st p d => exact maxpool2d_stable n j k st p d s s' s'' t t' hne h1 h2
  case h_8 i o => exact linear_stable n j i o s s' s'' t t' hne h1 h2
  case h_9 os => exact avgpool2d_stable n j os s s' s'' t t' hne h1 h2
  case h_10 => simp at h1

theorem tcn_inv (reg : Registry) (env : String → OpModule) (n : Node) (j : Nat)
    (s s1 : State) (r : Ty) (h : type_check_node reg env n j s = (s1, .ok r)) :
    (n.op = .placeholder ∧ s1 = fillDyn s j ∧ r = fillDyn s j j)
    ∨ (∃ f rid, n.op = .callFunction ∧ n.target = .fn f
        ∧ lookupRule reg (.fn f) = some rid
        ∧ applyRule rid n j none (fillDyn s j) = (s1, .ok r))
    ∨ (∃ nm rid, n.op = .callModule ∧ n.target = .moduleName nm
        ∧ lookupRule reg (.cls (env nm).classOf) = some rid
        ∧ applyRule rid n j (some (env nm)) (fillDyn s j) = (s1, .ok r))
    ∨ (∃ i, n.op = .output ∧ n.args.getD 0 (.intLit 0) = .node i
        ∧ s1 = upd (fillDyn s j) j (fillDyn s j i) ∧ r = fillDyn s j i) := by
  unfold type_check_node at h
  dsimp only [] at h
  split at h
  case h_1 hop =>
    rw [Prod.mk.injEq] at h
    obtain ⟨hs, hr⟩ := h
    injection hr with hr
    exact Or.inl ⟨hop, hs.symm, hr.symm⟩
  case h_2 hop =>
    split at h
    case h_2 => simp at h
    case h_1 f htar =>
      split at h
      case h_2 => simp at h
      case h_1 rid hlook =>
        exact Or.inr (Or.inl ⟨f, rid, hop, htar, hlook, h⟩)
  case h_3 hop =>
    split at h
    case h_2 => simp at h
    case h_1 nm htar =>
      split at h
      case h_2 => simp at h
      case h_1 rid hlook =>
        exact Or.inr (Or.inr (Or.inl ⟨nm, rid, hop, htar, hlook, h⟩))
  case h_4 hop =>
    split at h
    case h_2 => simp at h
    case h_1 i heq0 =>
      rw [Prod.mk.injEq] at h
      obtain ⟨hs, hr⟩ := h
      injection hr with hr
      exact Or.inr (Or.inr (Or.inr ⟨i, hop, heq0, hs.symm, hr.symm⟩))
  case h_5 => simp at h

/-- C1 (amended): the full two-pass idempotence claim is false (a Conv2d
node's first-pass output is re-checked as a declared annotation on the second
pass and trips the in-channel consistency check; see the counterexample
theorem). What does hold is per-node stability: re-running type_check_node on
a node whose argument nodes are distinct from the node itself and already
carry populated (non-unset) types either fails or reproduces exactly the same
state and the same inferred type as the first run. -/
theorem type_check_node_stable (reg : Registry) (env : String → OpModule) (n : Node)
    (j : Nat) (s s' s'' : State) (t t' : Ty)
    (hne : ∀ m ∈ argNodes n, m ≠ j)
    (hargs : ∀ m ∈ argNodes n, s m ≠ .unset)
    (h1 : type_check_node reg env n j s = (s', .ok t))
    (h2 : type_check_node reg env n j s' = (s'', .ok t')) :
    s'' = s' ∧ t' = t := by
  have hj2 : s' j ≠ .unset := (type_check_node_good reg env n j s s' t h1 hargs).2
  have hw2 : fillDyn s' j = s' := by
    unfold fillDyn
    rw [if_neg hj2]
  rcases tcn_inv reg env n j s s' t h1 with ⟨hop, hs, ht⟩ |
    ⟨f, rid, hop, htar, hlook, hrun⟩ | ⟨nm, rid, hop, htar, hlook, hrun⟩ |
    ⟨i, hop, heq0, hs, ht⟩
  · rcases tcn_inv reg env n j s' s'' t' h2 with ⟨hop2, hs2, ht2⟩ |
      ⟨f2, rid2, hop2, htar2, hlook2, hrun2⟩ | ⟨nm2, rid2, hop2, htar2, hlook2, hrun2⟩ |
      ⟨i2, hop2, heq02, hs2, ht2⟩
    · exact ⟨by rw [hs2, hw2], by rw [ht2, hw2, hs, ← ht]⟩
    · rw [hop] at hop2
      simp at hop2
    · rw [hop] at hop2
      simp at hop2
    · rw [hop] at hop2
      simp at hop2
  · rcases tcn_inv reg env n j s' s'' t' h2 with ⟨hop2, hs2, ht2⟩ |
      ⟨f2, rid2, hop2, htar2, hlook2, hrun2⟩ | ⟨nm2, rid2, hop2, htar2, hlook2, hrun2⟩ |
      ⟨i2, hop2, heq02, hs2, ht2⟩
    · rw [hop] at hop2
      simp at hop2
    · rw [htar] at htar2
      injection htar2 with hf
      subst hf
      rw [hlook] at hlook2
      injection hlook2 with hr
      subst hr
      rw [hw2] at hrun2
      exact applyRule_stable rid n j none _ s' s'' t t' hne hrun hrun2
    · rw [hop] at hop2
      simp at hop2
    · rw [hop] at hop2
      simp at hop2
  · rcases tcn_inv reg env n j s' s'' t' h2 with ⟨hop2, hs2, ht2⟩ |
      ⟨f2, rid2, hop2, htar2, hlook2, hrun2⟩ | ⟨nm2, rid2, hop2, htar2, hlook2, hrun2⟩ |
      ⟨i2, hop2, heq02, hs2, ht2⟩
    · rw [hop] at hop2
      simp at hop2
    · rw [hop] at hop2
      simp at hop2
    · rw [htar] at htar2
      injection htar2 with hnm
      subst hnm
      rw [hlook] at hlook2
      injection hlook2 with hr
      subst hr
      rw [hw2] at hrun2
      exact applyRule_stable rid n j (some (env nm)) _ s' s'' t t' hne hrun hrun2
    · rw [hop] at hop2
      simp at hop2
  · rcases tcn_inv reg env n j s' s'' t' h2 with ⟨hop2, hs2, ht2⟩ |
      ⟨f2, rid2, hop2, htar2, hlook2, hrun2⟩ | ⟨nm2, rid2, hop2, htar2, hlook2, hrun2⟩ |
      ⟨i2, hop2, heq02, hs2, ht2⟩
    · rw [hop] at hop2
      simp at hop2
    · rw [hop] at hop2
      simp at hop2
    · rw [hop] at hop2
      simp at hop2
    · rw [heq0] at heq02
      injection heq02 with hi
      subst hi
      have hij : i ≠ j := hne i (getD_node_mem_argNodes n 0 i heq0)
      have hsi : s' i = fillDyn s j i := by rw [hs, upd_other _ _ _ _ hij]
      have hsj : s' j = fillDyn s j i := by rw [hs, upd_same]
      constructor
      · rw [hs2, hw2]
        exact upd_self _ _ _ (by rw [hsj, hsi])
      · rw [ht2, hw2, hsi, ← ht]

/-- C1 counterexample: on the placeholder -> conv -> output running example the
first full type_check pass succeeds, but running type_check again on the state
it produced fails with the Conv2d consistency error, because the conv node's
first-pass output type (8 channels) is re-checked against in_channels = 3. -/
theorem type_check_not_idempotent :
    (type_check defaultRegistry envC1 gC1 sC1).2 = .ok true
    ∧ (type_check defaultRegistry envC1 gC1
        (type_check defaultRegistry envC1 gC1 sC1).1).2 = .error .convMismatch := by
  constructor
  · decide
  · decide

/-- C1 witness: per-node stability applied to a concrete torch.add node over
two populated tensor slots; the second run reproduces the first run's state
and type. -/
theorem type_check_node_stable_witness :
    (type_check_node defaultRegistry envC1
      ⟨.callFunction, .fn .torchAdd, [.node 0, .node 1]⟩ 2
      ((type_check_node defaultRegistry envC1
        ⟨.callFunction, .fn .torchAdd, [.node 0, .node 1]⟩ 2
        (fun k => if k = 0 then Ty.tensor [.nint 2]
          else if k = 1 then Ty.tensor [.nint 2] else Ty.unset)).1)).1
    = (type_check_node defaultRegistry envC1
        ⟨.callFunction, .fn .torchAdd, [.node 0, .node 1]⟩ 2
        (fun k => if k = 0 then Ty.tensor [.nint 2]
          else if k = 1 then Ty.tensor [.nint 2] else Ty.unset)).1
    ∧ Ty.tensor [.nint 2] = Ty.tensor [.nint 2] :=
  type_check_node_stable defaultRegistry envC1
    ⟨.callFunction, .fn .torchAdd, [.node 0, .node 1]⟩ 2
    (fun k => if k = 0 then Ty.tensor [.nint 2]
      else if k = 1 then Ty.tensor [.nint 2] else Ty.unset)
    _ _ (Ty.tensor [.nint 2]) (Ty.tensor [.nint 2])
    (by
      intro m hm
      have e : argNodes (⟨.callFunction, .fn .torchAdd, [.node 0, .node 1]⟩ : Node)
          = [0, 1] := rfl
      rw [e] at hm
      simp at hm
      rcases hm with rfl | rfl <;> decide)
    (by
      intro m hm
      have e : argNodes (⟨.callFunction, .fn .torchAdd, [.node 0, .node 1]⟩ : Node)
          = [0, 1] := rfl
      rw [e] at hm
      simp at hm
      rcases hm with rfl | rfl <;> decide)
    rfl rfl
